import Mathlib

/-!
Verification of the TSRA / P-TSRA simulation core.

Shallow embedding of the TypeScript sources:
  * `random.ts`   — `SeededRandom` (Mulberry32 PRNG and derived draws),
  * `tsra.ts`     — `TSRAAlgorithm` (Lyapunov drift-plus-penalty sub-problems,
                    queue/battery recurrence),
  * `optimizer.ts`— `GeneticOptimizer`,
  * `p-tsra.ts`   — `PTSRAAlgorithm` (EWMA predictor, GA fitness, predictive slot),
  * `simulator.ts`— `runSimulation` driver and `calculateGlobalMetrics`.

Modelling conventions.
  * JS double arithmetic is embedded as real arithmetic (`ℝ`); the Mulberry32
    integer core is embedded exactly over `ℕ` (values as `ℚ`).
  * The per-sensor stochastic event draws (arrival, harvest, channel gain) enter
    the slot functions as explicit inputs, and the unseeded `Math.random()` used
    by the predictor noise is an explicit oracle stream, so that every function
    here is a pure function of its arguments exactly as the JS methods are pure
    functions of their arguments plus the consumed random draws.
  * Lists keyed by sensor id in the source (`Map<string, number>`) are modelled
    positionally; sensor ids are unique within a configuration.
-/

/-! ## Mulberry32 seeded RNG (`SeededRandom`, random.ts) -/

/-- JS `ToUint32`, the truncation applied by the bitwise operators and `>>> 0`. -/
def mask32 (n : ℕ) : ℕ := n % 4294967296

/-- The constructor `this.state = seed >>> 0`. -/
def SeededRandom.init (seed : ℕ) : ℕ := mask32 seed

/-- The state bump `this.state += 0x6d2b79f5`.  The JS field is a double that is
kept unreduced (the truncation happens inside the mixing bit-operations); the
addition is exact while the state stays below `2^53`, which our `ℕ` model
reproduces exactly. -/
def mb_step (s : ℕ) : ℕ := s + 0x6d2b79f5

/-- The Mulberry32 output mix of `random()`:
`t = imul(t ^ (t >>> 15), t | 1); t ^= t + imul(t ^ (t >>> 7), t | 61);
return (t ^ (t >>> 14)) >>> 0`.  Each JS bitwise operator and `imul` coerces
its result to 32 bits, hence the `mask32` at exactly those points. -/
def mb_mix (t : ℕ) : ℕ :=
  let t0 := mask32 t
  let t1 := mask32 ((t0 ^^^ (t0 >>> 15)) * (t0 ||| 1))
  let t2 := t1 ^^^ mask32 (t1 + mask32 ((t1 ^^^ (t1 >>> 7)) * (t1 ||| 61)))
  t2 ^^^ (t2 >>> 14)

/-- `random()`: bump the state, mix, divide by `4294967296`; returns the new
state together with the produced value. -/
def SeededRandom.random (s : ℕ) : ℕ × ℚ :=
  let s2 := mb_step s
  (s2, (mb_mix s2 : ℚ) / 4294967296)

/-- State right before the n-th `random()` call (0-indexed) for a fresh
`new SeededRandom(seed)`. -/
def SeededRandom.stateAt (seed : ℕ) : ℕ → ℕ
  | 0 => SeededRandom.init seed
  | n + 1 => (SeededRandom.random (SeededRandom.stateAt seed n)).1

/-- Value returned by the n-th `random()` call (0-indexed) for seed `seed`. -/
def SeededRandom.valueAt (seed : ℕ) (n : ℕ) : ℚ :=
  (SeededRandom.random (SeededRandom.stateAt seed n)).2

/-- The Mulberry32 recurrence exactly as the specification words it:
state is a 32-bit value, the step adds `0x6d2b79f5` truncated modulo `2^32`,
mixes `(t XOR t>>15) * (t OR 1)`, then `t ^= t + (t XOR t>>7) * (t OR 61)`,
and returns `((t XOR t>>14) >>> 0) / 2^32`, every 32-bit operation truncated
modulo `2^32`. -/
def mulberry32Spec (s : ℕ) : ℕ × ℚ :=
  let s1 : ℕ := (s + 0x6d2b79f5) % 2 ^ 32
  let t1 : ℕ := ((s1 ^^^ (s1 >>> 15)) * (s1 ||| 1)) % 2 ^ 32
  let t2 : ℕ := t1 ^^^ ((t1 + ((t1 ^^^ (t1 >>> 7)) * (t1 ||| 61)) % 2 ^ 32) % 2 ^ 32)
  let out : ℕ := (t2 ^^^ (t2 >>> 14)) % 2 ^ 32
  (s1, (out : ℚ) / 2 ^ 32)

/-- Spec-side state before the n-th call. -/
def mulberrySpecState (seed : ℕ) : ℕ → ℕ
  | 0 => seed % 2 ^ 32
  | n + 1 => (mulberry32Spec (mulberrySpecState seed n)).1

/-- Spec-side value of the n-th call: the closed-form function of
(seed, call order). -/
def mulberrySpecValue (seed : ℕ) (n : ℕ) : ℚ :=
  (mulberry32Spec (mulberrySpecState seed n)).2

theorem mask32_eq_mod (n : ℕ) : mask32 n = n % 2 ^ 32 := by
  norm_num [mask32]

theorem mod32_lt (n : ℕ) : n % 2 ^ 32 < 2 ^ 32 := Nat.mod_lt _ (by norm_num)

theorem mod32_mod32 (n : ℕ) : n % 2 ^ 32 % 2 ^ 32 = n % 2 ^ 32 :=
  Nat.mod_mod_of_dvd _ dvd_rfl

theorem xor_shiftRight_lt {a n : ℕ} (k : ℕ) (h : a < 2 ^ n) : a ^^^ (a >>> k) < 2 ^ n :=
  Nat.xor_lt_two_pow h
    (lt_of_le_of_lt (by simpa [Nat.shiftRight_eq_div_pow] using Nat.div_le_self a (2 ^ k)) h)

theorem mb_mix_lt (t : ℕ) : mb_mix t < 2 ^ 32 := by
  unfold mb_mix
  simp only [mask32_eq_mod]
  exact xor_shiftRight_lt 14 (Nat.xor_lt_two_pow (mod32_lt _) (mod32_lt _))

theorem mb_mix_congr {a b : ℕ} (h : a % 2 ^ 32 = b % 2 ^ 32) : mb_mix a = mb_mix b := by
  simp only [mb_mix, mask32_eq_mod, h]

/-- The spec-side value, rephrased through the code-side mix of the reduced
state.  The extra trailing truncation in the spec is a no-op because the mixed
output is already below `2^32`. -/
theorem spec_val_eq_mix (x : ℕ) :
    (mulberry32Spec x).2 = (mb_mix ((x + 0x6d2b79f5) % 2 ^ 32) : ℚ) / 4294967296 := by
  unfold mulberry32Spec mb_mix
  simp only [mask32_eq_mod, mod32_mod32]
  generalize (x + 0x6d2b79f5) % 2 ^ 32 = u
  rw [Nat.mod_eq_of_lt (xor_shiftRight_lt 14 (Nat.xor_lt_two_pow (mod32_lt _) (mod32_lt _)))]
  norm_num

/-- The code step and the spec step produce the same value and congruent
states: the code state reduced modulo `2^32` follows the spec recurrence. -/
theorem random_eq_spec (s : ℕ) :
    mask32 (SeededRandom.random s).1 = (mulberry32Spec (mask32 s)).1 ∧
    (SeededRandom.random s).2 = (mulberry32Spec (mask32 s)).2 := by
  have hst : mask32 (mb_step s) = (mask32 s + 0x6d2b79f5) % 2 ^ 32 := by
    simp only [mask32_eq_mod, mb_step]
    omega
  constructor
  · exact hst
  · show (mb_mix (mb_step s) : ℚ) / 4294967296 = _
    rw [spec_val_eq_mix]
    have : mb_mix (mb_step s) = mb_mix ((mask32 s + 0x6d2b79f5) % 2 ^ 32) := by
      apply mb_mix_congr
      simp only [mask32_eq_mod, mb_step, mod32_mod32]
      omega
    rw [this]

theorem stateAt_eq_spec (seed n : ℕ) :
    mask32 (SeededRandom.stateAt seed n) = mulberrySpecState seed n := by
  induction n with
  | zero =>
    show mask32 (mask32 seed) = seed % 2 ^ 32
    rw [mask32_eq_mod, mask32_eq_mod, Nat.mod_mod_of_dvd _ dvd_rfl]
  | succ n ih =>
    show mask32 (SeededRandom.random (SeededRandom.stateAt seed n)).1 = _
    rw [(random_eq_spec (SeededRandom.stateAt seed n)).1, ih]
    rfl

theorem valueAt_nonneg (seed n : ℕ) : 0 ≤ SeededRandom.valueAt seed n := by
  unfold SeededRandom.valueAt SeededRandom.random
  positivity

theorem valueAt_lt_one (seed n : ℕ) : SeededRandom.valueAt seed n < 1 := by
  unfold SeededRandom.valueAt SeededRandom.random
  show (mb_mix _ : ℚ) / 4294967296 < 1
  rw [div_lt_one (by norm_num)]
  exact_mod_cast lt_of_lt_of_le (mb_mix_lt _) (by norm_num)

/-- C2.  The `random()` operation implements exactly the Mulberry32 recurrence
stated in the specification: for every seed, the value of the n-th call equals
the closed-form spec sequence `mulberrySpecValue seed n` (so the produced
sequence is a pure function of (seed, call order)), and every value lies in
`[0, 1)`. -/
theorem C2_mulberry32 :
    ∀ seed n : ℕ,
      SeededRandom.valueAt seed n = mulberrySpecValue seed n ∧
      0 ≤ SeededRandom.valueAt seed n ∧ SeededRandom.valueAt seed n < 1 := by
  intro seed n
  refine ⟨?_, valueAt_nonneg seed n, valueAt_lt_one seed n⟩
  unfold SeededRandom.valueAt mulberrySpecValue
  rw [(random_eq_spec (SeededRandom.stateAt seed n)).2, stateAt_eq_spec]

/-! ## Real-valued draws of `SeededRandom` -/

theorem random_val_nonneg (s : ℕ) : 0 ≤ (SeededRandom.random s).2 := by
  unfold SeededRandom.random
  positivity

theorem random_val_lt_one (s : ℕ) : (SeededRandom.random s).2 < 1 := by
  unfold SeededRandom.random
  show (mb_mix _ : ℚ) / 4294967296 < 1
  rw [div_lt_one (by norm_num)]
  exact_mod_cast lt_of_lt_of_le (mb_mix_lt _) (by norm_num)

/-- `random()` viewed in the real numbers (JS doubles are modelled as reals). -/
noncomputable def SeededRandom.randomR (s : ℕ) : ℕ × ℝ :=
  ((SeededRandom.random s).1, ((SeededRandom.random s).2 : ℝ))

theorem randomR_nonneg (s : ℕ) : 0 ≤ (SeededRandom.randomR s).2 := by
  unfold SeededRandom.randomR
  dsimp only
  exact_mod_cast random_val_nonneg s

theorem randomR_lt_one (s : ℕ) : (SeededRandom.randomR s).2 < 1 := by
  unfold SeededRandom.randomR
  dsimp only
  exact_mod_cast random_val_lt_one s

/-- `uniform(min, max) = this.random() * (max - min) + min`. -/
noncomputable def SeededRandom.uniform (s : ℕ) (lo hi : ℝ) : ℕ × ℝ :=
  ((SeededRandom.randomR s).1, (SeededRandom.randomR s).2 * (hi - lo) + lo)

/-- `gaussian(mean, std)`: Box-Muller transform on two consecutive draws. -/
noncomputable def SeededRandom.gaussian (s : ℕ) (mean std : ℝ) : ℕ × ℝ :=
  ((SeededRandom.randomR (SeededRandom.randomR s).1).1,
   Real.sqrt (-2 * Real.log (SeededRandom.randomR s).2) *
     Real.cos (2 * Real.pi * (SeededRandom.randomR (SeededRandom.randomR s).1).2) * std + mean)

theorem uniform_mem {s : ℕ} {lo hi : ℝ} (h : lo ≤ hi) :
    lo ≤ (SeededRandom.uniform s lo hi).2 ∧ (SeededRandom.uniform s lo hi).2 ≤ hi := by
  have h0 := randomR_nonneg s
  have h1 := randomR_lt_one s
  unfold SeededRandom.uniform
  dsimp only
  constructor <;> nlinarith

/-- C9 counterexample: with seed 0 the first draw r is nonzero, so the
malformed-range call `uniform(1, 0)` returns `1 - r`, which is not `1 = a`;
the claim that `uniform(a, b)` with `a > b` returns the value `a` fails. -/
theorem C9_counterexample : (SeededRandom.uniform (SeededRandom.init 0) 1 0).2 ≠ 1 := by
  have hmix : mb_mix (mb_step (SeededRandom.init 0)) = 1144304738 := by decide
  simp only [SeededRandom.uniform, SeededRandom.randomR, SeededRandom.random, hmix]
  norm_num

/-- C9 amended: `uniform(a, b)` is total; for every malformed range `a > b` it
returns a well-defined value in the half-open interval `(b, a]` (it equals `a`
exactly when the underlying draw is 0) and raises no error (the embedding of
`uniform` is a total function). -/
theorem C9_uniform_total (s : ℕ) (a b : ℝ) (h : b < a) :
    b < (SeededRandom.uniform s a b).2 ∧ (SeededRandom.uniform s a b).2 ≤ a := by
  have h0 := randomR_nonneg s
  have h1 := randomR_lt_one s
  unfold SeededRandom.uniform
  dsimp only
  constructor <;> nlinarith

theorem C9_uniform_total_witness :
    (0:ℝ) < 1 ∧ 0 < (SeededRandom.uniform 0 1 0).2 ∧ (SeededRandom.uniform 0 1 0).2 ≤ 1 :=
  ⟨by norm_num, C9_uniform_total 0 1 0 (by norm_num)⟩

/-! ## Data model (types/experiment.ts) -/

/-- Offloading mode of a sensor. -/
inductive OffloadMode
  | binary
  | fractional
deriving DecidableEq, Inhabited

/-- The fields of `SensorConfig` consumed by the decision engine.  The tagged
arrival/harvest model parameters and the channel variance only feed the
stochastic event generators, which enter this embedding through explicit event
inputs, and the string id is replaced by the list position. -/
structure SensorConfig where
  J_mean_bits_per_slot : ℝ
  harvest_mean_J_per_slot : ℝ
  channel_mean_gain : ℝ
  initial_queue_bits : ℝ
  battery_J : ℝ
  f_max_Hz : ℝ
  delta_cycles_per_bit : ℝ
  p_max_W : ℝ
  priority_weight : ℝ
  offload_mode : OffloadMode
deriving Inhabited

structure EdgeServerConfig where
  f_k_Hz : ℝ
deriving Inhabited

structure GlobalParams where
  theta : ℝ
  noise_power_W : ℝ
deriving Inhabited

/-- The constructor fields of the `TSRAAlgorithm` class (the seeded RNG member
is threaded separately as explicit event inputs). -/
structure TSRAAlgorithm where
  V : ℝ
  tau : ℝ
  bandwidth : ℝ
  globalParams : GlobalParams
deriving Inhabited

/-- Runtime state of one sensor. -/
structure SensorState where
  H_l : ℝ
  H_o : ℝ
  H_k : ℝ
  B_u : ℝ
deriving Inhabited

/-- One slot decision vector. -/
structure SlotDecision where
  kappa : ℝ
  alpha : ℝ
  f_u : ℝ
  p_u : ℝ
  xi_u : ℝ
deriving Inhabited

/-- The three stochastic draws of one sensor in one slot. -/
structure SlotEvents where
  arrival : ℝ
  harvest : ℝ
  channelGain : ℝ
deriving Inhabited

/-- Per-sensor per-slot record. -/
structure SensorSlotResult where
  H_l : ℝ
  H_o : ℝ
  H_k : ℝ
  alpha : ℝ
  local_energy_J : ℝ
  tx_energy_J : ℝ
  p_tx_W : ℝ
  f_cpu_Hz : ℝ
  arrival_bits : ℝ
  harvest_J : ℝ
  battery_J : ℝ
deriving Inhabited

/-- Edge-server slot record: one `(xi, processed_bits)` pair per sensor. -/
structure EdgeSlotResult where
  ES_allocations : List (ℝ × ℝ)
deriving Inhabited

/-! ## Baseline policy (`TSRAAlgorithm`, tsra.ts) -/

/-- Sub-problem 1: `κ = 0` if `H_o ≥ H_l`, else `1`. -/
noncomputable def taskSchedulingDecision (state : SensorState) : ℝ :=
  if state.H_o ≥ state.H_l then 0 else 1

/-- Sub-problem 2: local CPU-cycle frequency allocation. -/
noncomputable def localCPUFrequencyAllocation (alg : TSRAAlgorithm) (sensor : SensorConfig)
    (state : SensorState) : ℝ :=
  let delta := sensor.delta_cycles_per_bit
  let theta := alg.globalParams.theta
  let batteryThreshold := (state.B_u / (theta * alg.tau)) ^ ((1 : ℝ) / 3)
  let queueConstraint := state.H_l * delta / alg.tau
  let lyapunovFreq := (state.H_l / (3 * alg.V * theta * delta)) ^ ((1 : ℝ) / 2)
  if batteryThreshold ≤ min sensor.f_max_Hz queueConstraint then
    if lyapunovFreq ≤ batteryThreshold then
      min sensor.f_max_Hz (max 0 lyapunovFreq)
    else
      min sensor.f_max_Hz (min queueConstraint lyapunovFreq)
  else
    min sensor.f_max_Hz queueConstraint

/-- Sub-problem 3: transmission power allocation (water-filling). -/
noncomputable def transmissionPowerAllocation (alg : TSRAAlgorithm) (sensor : SensorConfig)
    (state : SensorState) (channelGain : ℝ) : ℝ :=
  if state.H_o ≤ state.H_k then 0
  else
    let sigma2 := alg.globalParams.noise_power_W
    let waterLevel := (state.H_o - state.H_k) * alg.bandwidth / (alg.V * Real.log 2) -
      sigma2 / channelGain
    let maxRateConstraint := ((2 : ℝ) ^ (state.H_o / (alg.bandwidth * alg.tau)) - 1) *
      sigma2 / channelGain
    max 0 (min sensor.p_max_W (min waterLevel maxRateConstraint))

/-- `r_u τ = W log2(1 + p g / σ²) τ`, the bits transmitted in one slot. -/
noncomputable def calculateTransmissionRate (alg : TSRAAlgorithm) (power channelGain : ℝ) : ℝ :=
  alg.bandwidth * Real.logb 2 (1 + power * channelGain / alg.globalParams.noise_power_W) * alg.tau

/-- `E_l = θ f³ τ`. -/
noncomputable def calculateLocalEnergy (alg : TSRAAlgorithm) (frequency : ℝ) : ℝ :=
  alg.globalParams.theta * frequency ^ 3 * alg.tau

/-- `E_tx = p τ`. -/
noncomputable def calculateTransmissionEnergy (alg : TSRAAlgorithm) (power : ℝ) : ℝ :=
  power * alg.tau

/-- The battery recurrence `B' = max(0, B - E_loc) + harvest` shared verbatim by
`executeSlot` (tsra.ts line 459) and `executeSlotPredictive` (p-tsra.ts
line 369). -/
noncomputable def batteryUpdate (B localEnergy harvest : ℝ) : ℝ :=
  max 0 (B - localEnergy) + harvest

/-- The weighted backlogs `H_k · w` of sub-problem 4, in sensor order. -/
noncomputable def edgeWeights (sensors : List SensorConfig) (states : List SensorState) :
    List ℝ :=
  List.zipWith (fun (st : SensorState) (se : SensorConfig) => st.H_k * se.priority_weight)
    states sensors

/-- Sub-problem 4: proportional allocation `ξ = min(1, w/Σw)` (uniform `1/n`
when the total weight is not positive), in sensor order. -/
noncomputable def edgeServerAllocation (sensors : List SensorConfig)
    (states : List SensorState) : List ℝ :=
  let weights := edgeWeights sensors states
  let totalWeight := weights.sum
  weights.map fun w =>
    min 1 (if 0 < totalWeight then w / totalWeight else 1 / sensors.length)

/-- Output of the body of the per-sensor loop of `executeSlot`. -/
structure SensorStepOut where
  decision : SlotDecision
  newState : SensorState
  result : SensorSlotResult

/-- One iteration of the sensor loop in `TSRAAlgorithm.executeSlot`. -/
noncomputable def TSRAAlgorithm.sensorStep (alg : TSRAAlgorithm) (sensor : SensorConfig)
    (state : SensorState) (ev : SlotEvents) (xi_u : ℝ) (edgeServer : EdgeServerConfig) :
    SensorStepOut :=
  let kappa := taskSchedulingDecision state
  let f_u := localCPUFrequencyAllocation alg sensor state
  let p_u := transmissionPowerAllocation alg sensor state ev.channelGain
  let delta := sensor.delta_cycles_per_bit
  let C_l := f_u * alg.tau / delta
  let C_o := calculateTransmissionRate alg p_u ev.channelGain
  let C_k := xi_u * edgeServer.f_k_Hz * alg.tau / delta
  let localEnergy := calculateLocalEnergy alg f_u
  let txEnergy := calculateTransmissionEnergy alg p_u
  let new_H_l := max 0 (state.H_l - C_l) + (1 - kappa) * ev.arrival
  let new_H_o := max 0 (state.H_o - C_o) + kappa * ev.arrival
  let new_H_k := max 0 (state.H_k - C_k) + C_o
  let new_B_u := batteryUpdate state.B_u localEnergy ev.harvest
  let alpha := match sensor.offload_mode with
    | OffloadMode.fractional => if 0 < ev.arrival then kappa * ev.arrival / ev.arrival else 0
    | OffloadMode.binary => kappa
  ⟨⟨kappa, alpha, f_u, p_u, xi_u⟩,
   ⟨new_H_l, new_H_o, new_H_k, new_B_u⟩,
   ⟨new_H_l, new_H_o, new_H_k, alpha, localEnergy, txEnergy, p_u, f_u,
    ev.arrival, ev.harvest, new_B_u⟩⟩

/-- Combined output of `executeSlot`. -/
structure SlotOut where
  decisions : List SlotDecision
  newStates : List SensorState
  sensorResults : List SensorSlotResult
  edgeResult : EdgeSlotResult

/-- `executeSlot` with the stochastic draws of the slot given as inputs, one
`SlotEvents` per sensor in sensor order. -/
noncomputable def TSRAAlgorithm.executeSlot (alg : TSRAAlgorithm)
    (sensors : List SensorConfig) (states : List SensorState) (events : List SlotEvents)
    (edgeServer : EdgeServerConfig) : SlotOut :=
  let xis := edgeServerAllocation sensors states
  let steps := (List.range sensors.length).map fun i =>
    alg.sensorStep (sensors.getD i default) (states.getD i default)
      (events.getD i default) (xis.getD i 0) edgeServer
  ⟨steps.map (·.decision), steps.map (·.newState), steps.map (·.result),
   ⟨(List.range sensors.length).map fun i =>
     (xis.getD i 0,
      xis.getD i 0 * edgeServer.f_k_Hz * alg.tau / (sensors.getD i default).delta_cycles_per_bit)⟩⟩

/-- `initializeSensorStates`: split the initial backlog between the local and
offload queues, edge queue empty, battery from configuration. -/
noncomputable def initializeSensorStates (sensors : List SensorConfig) : List SensorState :=
  sensors.map fun sensor =>
    ⟨sensor.initial_queue_bits / 2, sensor.initial_queue_bits / 2, 0, sensor.battery_J⟩

/-- Sensor states at each slot boundary when the Baseline policy runs alone:
boundary 0 is the initial state, boundary n+1 is the committed state after
slot n.  `events slot i` is the event triple drawn for sensor i in that slot. -/
noncomputable def tsraSimulate (alg : TSRAAlgorithm) (sensors : List SensorConfig)
    (edgeServer : EdgeServerConfig) (events : ℕ → ℕ → SlotEvents) : ℕ → List SensorState
  | 0 => initializeSensorStates sensors
  | n + 1 =>
    (alg.executeSlot sensors (tsraSimulate alg sensors edgeServer events n)
      ((List.range sensors.length).map (events n)) edgeServer).newStates

/-! ## Genetic optimizer (`GeneticOptimizer`, optimizer.ts) -/

/-- A candidate: genes plus cached fitness.  The JS code creates fresh
individuals with fitness `Infinity`; that placeholder is always overwritten by
`evaluatePopulation` before any read, so it is modelled by `0` here. -/
structure Individual where
  genes : List ℝ
  fitness : ℝ
deriving Inhabited

/-- Constructor fields of `GeneticOptimizer` (the member RNG is threaded as an
explicit `ℕ` state). -/
structure GeneticOptimizer where
  populationSize : ℕ
  generations : ℕ
  mutationProb : ℝ
deriving Inhabited

/-- `Math.max(2, Math.floor(populationSize * 0.1))`. -/
def GeneticOptimizer.eliteCount (opt : GeneticOptimizer) : ℕ :=
  max 2 (opt.populationSize / 10)

/-- `Math.floor(v * n)` for a draw `v ∈ [0, 1)`, the JS random-index idiom. -/
noncomputable def jsFloorIdx (v : ℝ) (n : ℕ) : ℕ :=
  (⌊v * n⌋).toNat

/-- Genes of one fresh individual: one `uniform(min, max)` draw per bound,
in gene order (the `geneCount` loop variable of the source ranges exactly over
the bounds list at every call site). -/
noncomputable def initGenes (rng : ℕ) : List (ℝ × ℝ) → ℕ × List ℝ
  | [] => (rng, [])
  | b :: rest =>
    let p := SeededRandom.uniform rng b.1 b.2
    let q := initGenes p.1 rest
    (q.1, p.2 :: q.2)

/-- `initializePopulation`: `populationSize` fresh individuals in creation
order. -/
noncomputable def initializePopulation (bounds : List (ℝ × ℝ)) (rng : ℕ) :
    ℕ → ℕ × List Individual
  | 0 => (rng, [])
  | n + 1 =>
    let p := initGenes rng bounds
    let q := initializePopulation bounds p.1 n
    (q.1, ⟨p.2, 0⟩ :: q.2)

/-- The conditional update of the running tournament best:
`if (!best || candidate.fitness < best.fitness) best = candidate`. -/
noncomputable def betterOf (best : Option Individual) (candidate : Individual) :
    Option Individual :=
  match best with
  | none => some candidate
  | some b => if candidate.fitness < b.fitness then some candidate else some b

/-- The tournament loop body, iterated `tournamentSize = 3` times. -/
noncomputable def tournamentRound (population : List Individual) :
    ℕ → ℕ → Option Individual → ℕ × Option Individual
  | rng, 0, best => (rng, best)
  | rng, k + 1, best =>
    let p := SeededRandom.randomR rng
    let candidate := population.getD (jsFloorIdx p.2 population.length) default
    tournamentRound population p.1 k (betterOf best candidate)

/-- `tournamentSelect`: the best of three uniformly drawn members. -/
noncomputable def tournamentSelect (rng : ℕ) (population : List Individual) :
    ℕ × Individual :=
  let p := tournamentRound population rng 3 none
  (p.1, p.2.getD default)

/-- Uniform crossover: one `random() < 0.5` coin per gene position (the parents
always carry equally long gene lists). -/
noncomputable def crossoverGenes (rng : ℕ) : List ℝ → List ℝ → ℕ × List ℝ
  | [], _ => (rng, [])
  | _ :: _, [] => (rng, [])
  | a :: as, b :: bs =>
    let p := SeededRandom.randomR rng
    let q := crossoverGenes p.1 as bs
    (q.1, (if p.2 < 0.5 then a else b) :: q.2)

/-- Gaussian mutation with clipping to the bounds; `mutationScale` defaults to
`0.1` at the call site. -/
noncomputable def mutateGenes (mutationProb mutationScale : ℝ) (rng : ℕ) :
    List ℝ → List (ℝ × ℝ) → ℕ × List ℝ
  | [], _ => (rng, [])
  | g :: gs, [] => (rng, g :: gs)
  | g :: gs, b :: bs =>
    let p := SeededRandom.randomR rng
    if p.2 < mutationProb then
      let m := SeededRandom.gaussian p.1 0 ((b.2 - b.1) * mutationScale)
      let q := mutateGenes mutationProb mutationScale m.1 gs bs
      (q.1, max b.1 (min b.2 (g + m.2)) :: q.2)
    else
      let q := mutateGenes mutationProb mutationScale p.1 gs bs
      (q.1, g :: q.2)

/-- `evaluatePopulation`: recompute every fitness and count the individuals
with fitness above `1e5` (labelled infeasible). -/
noncomputable def evaluatePopulation (fitnessFunc : Individual → ℝ)
    (population : List Individual) : List Individual × ℕ :=
  let evaluated := population.map fun ind => Individual.mk ind.genes (fitnessFunc ind)
  (evaluated, (evaluated.filter fun ind => decide ((100000 : ℝ) < ind.fitness)).length)

/-- `population.sort((a, b) => a.fitness - b.fitness)`: stable ascending sort
by fitness. -/
noncomputable def sortByFitness (population : List Individual) : List Individual :=
  population.mergeSort fun a b => decide (a.fitness ≤ b.fitness)

/-- The while-loop that fills the new population after the elites: repeatedly
tournament-select two parents, cross them over and mutate the child. -/
noncomputable def makeOffspring (opt : GeneticOptimizer) (bounds : List (ℝ × ℝ))
    (population : List Individual) (rng : ℕ) : ℕ → ℕ × List Individual
  | 0 => (rng, [])
  | k + 1 =>
    let s1 := tournamentSelect rng population
    let s2 := tournamentSelect s1.1 population
    let c := crossoverGenes s2.1 s1.2.genes s2.2.genes
    let m := mutateGenes opt.mutationProb 0.1 c.1 c.2 bounds
    let q := makeOffspring opt bounds population m.1 k
    (q.1, ⟨m.2, 0⟩ :: q.2)

/-- Result record of `optimize`. -/
structure OptimizationResult where
  best : Individual
  generations : ℕ
  evaluations : ℕ
  converged : Bool

/-- Output of the generation loop. -/
structure GALoopOut where
  rng : ℕ
  best : Individual
  converged : Bool
  evaluations : ℕ

/-- The `for gen` loop of `optimize`, with the remaining generation count as
fuel.  Each iteration: fold the sorted head into best-ever and the stagnation
counter, break on stagnation, otherwise copy the elites, fill with offspring,
re-evaluate, sort, and fold the new head into best-ever (without resetting the
stagnation counter, exactly as the source does). -/
noncomputable def gaLoop (opt : GeneticOptimizer) (fitnessFunc : Individual → ℝ)
    (bounds : List (ℝ × ℝ)) (maxStagnation : ℕ) :
    ℕ → ℕ → List Individual → Individual → ℕ → ℕ → GALoopOut
  | 0, rng, _, bestEver, stagnation, evals =>
    ⟨rng, bestEver, decide (maxStagnation ≤ stagnation), evals⟩
  | k + 1, rng, population, bestEver, stagnation, evals =>
    let head := population.headD default
    let best1 := if head.fitness < bestEver.fitness then head else bestEver
    let stag1 := if head.fitness < bestEver.fitness then 0 else stagnation + 1
    if maxStagnation ≤ stag1 then ⟨rng, best1, true, evals⟩
    else
      let elites := (population.take opt.eliteCount).map fun ind =>
        Individual.mk ind.genes ind.fitness
      let off := makeOffspring opt bounds population rng (opt.populationSize - elites.length)
      let ev := evaluatePopulation fitnessFunc (elites ++ off.2)
      let sorted := sortByFitness ev.1
      let head2 := sorted.headD default
      let best2 := if head2.fitness < best1.fitness then head2 else best1
      gaLoop opt fitnessFunc bounds maxStagnation k off.1 sorted best2 stag1
        (evals + opt.populationSize)

/-- `optimize`: initialize, evaluate, sort, then run the generation loop;
`maxStagnation = ceil(generations / 2)`.  (The generation callback only feeds
telemetry and is dropped here.) -/
noncomputable def GeneticOptimizer.optimize (opt : GeneticOptimizer)
    (fitnessFunc : Individual → ℝ) (bounds : List (ℝ × ℝ)) (rng : ℕ) :
    ℕ × OptimizationResult :=
  let ip := initializePopulation bounds rng opt.populationSize
  let ev := evaluatePopulation fitnessFunc ip.2
  let sorted := sortByFitness ev.1
  let bestEver := sorted.headD default
  let out := gaLoop opt fitnessFunc bounds ((opt.generations + 1) / 2) opt.generations
    ip.1 sorted bestEver 0 opt.populationSize
  (out.rng, ⟨out.best, opt.generations, out.evaluations, out.converged⟩)

/-! ## Bounds invariant of the optimizer -/

/-- Genes lie componentwise within the bounds (and have the same length). -/
def genesInBounds (bounds : List (ℝ × ℝ)) (genes : List ℝ) : Prop :=
  List.Forall₂ (fun g b => b.1 ≤ g ∧ g ≤ b.2) genes bounds

/-- Every bound is a nonempty interval. -/
def boundsValid (bounds : List (ℝ × ℝ)) : Prop :=
  ∀ b ∈ bounds, b.1 ≤ b.2

theorem getD_mem {α : Type} {l : List α} {i : ℕ} (d : α) (h : i < l.length) :
    l.getD i d ∈ l := by
  rw [List.getD_eq_getElem _ _ h]
  exact List.getElem_mem h

theorem jsFloorIdx_lt {v : ℝ} {n : ℕ} (h0 : 0 ≤ v) (h1 : v < 1) (hn : 0 < n) :
    jsFloorIdx v n < n := by
  have hnR : (0 : ℝ) < n := by exact_mod_cast hn
  have hfl : ⌊v * n⌋ < (n : ℤ) := by
    rw [Int.floor_lt]
    push_cast
    nlinarith
  have hfn : 0 ≤ ⌊v * n⌋ := Int.floor_nonneg.mpr (by positivity)
  unfold jsFloorIdx
  omega

theorem initGenes_inBounds {bounds : List (ℝ × ℝ)} (hb : boundsValid bounds) (rng : ℕ) :
    genesInBounds bounds (initGenes rng bounds).2 := by
  induction bounds generalizing rng with
  | nil => exact List.Forall₂.nil
  | cons b rest ih =>
    have hmem := uniform_mem (s := rng) (hb b (by simp))
    exact List.Forall₂.cons hmem (ih (fun x hx => hb x (by simp [hx])) _)

theorem initializePopulation_length (bounds : List (ℝ × ℝ)) (rng n : ℕ) :
    (initializePopulation bounds rng n).2.length = n := by
  induction n generalizing rng with
  | zero => rfl
  | succ n ih => simp [initializePopulation, ih]

theorem initializePopulation_inBounds {bounds : List (ℝ × ℝ)} (hb : boundsValid bounds)
    (rng n : ℕ) :
    ∀ ind ∈ (initializePopulation bounds rng n).2, genesInBounds bounds ind.genes := by
  induction n generalizing rng with
  | zero => intro ind h; simp [initializePopulation] at h
  | succ n ih =>
    intro ind h
    simp only [initializePopulation, List.mem_cons] at h
    rcases h with h | h
    · subst h; exact initGenes_inBounds hb rng
    · exact ih _ ind h


theorem betterOf_sound {Q : Individual → Prop} {b : Option Individual} {c : Individual}
    (hc : Q c) (hb : ∀ y, b = some y → Q y) :
    ∀ y, betterOf b c = some y → Q y := by
  intro y hy
  rcases b with _ | x
  · simp only [betterOf] at hy
    cases hy
    exact hc
  · simp only [betterOf] at hy
    by_cases hlt : c.fitness < x.fitness
    · rw [if_pos hlt] at hy; cases hy; exact hc
    · rw [if_neg hlt] at hy; cases hy; exact hb _ rfl

theorem betterOf_isSome (b : Option Individual) (c : Individual) :
    (betterOf b c).isSome := by
  rcases b with _ | x
  · rfl
  · simp only [betterOf]
    by_cases hlt : c.fitness < x.fitness
    · rw [if_pos hlt]; rfl
    · rw [if_neg hlt]; rfl

theorem tournamentRound_sound {population : List Individual} {Q : Individual → Prop}
    (hpop : population ≠ []) (hall : ∀ x ∈ population, Q x) :
    ∀ (k rng : ℕ) (b0 : Option Individual), (∀ y, b0 = some y → Q y) →
      ∀ y, (tournamentRound population rng k b0).2 = some y → Q y := by
  intro k
  induction k with
  | zero => intro rng b0 hb0 y hy; exact hb0 y hy
  | succ k ih =>
    intro rng b0 hb0 y hy
    have hlen : 0 < population.length := List.length_pos.mpr hpop
    have hcand : Q (population.getD
        (jsFloorIdx (SeededRandom.randomR rng).2 population.length) default) :=
      hall _ (getD_mem _ (jsFloorIdx_lt (randomR_nonneg rng) (randomR_lt_one rng) hlen))
    exact ih _ _ (betterOf_sound hcand hb0) y hy

theorem tournamentRound_isSome {population : List Individual} :
    ∀ (k rng : ℕ) (b0 : Option Individual), b0.isSome →
      (tournamentRound population rng k b0).2.isSome := by
  intro k
  induction k with
  | zero => intro rng b0 h; exact h
  | succ k ih =>
    intro rng b0 h
    exact ih _ _ (betterOf_isSome _ _)

theorem tournamentSelect_sound {population : List Individual} {Q : Individual → Prop}
    (hpop : population ≠ []) (hall : ∀ x ∈ population, Q x) (rng : ℕ) :
    Q (tournamentSelect rng population).2 := by
  have hlen : 0 < population.length := List.length_pos.mpr hpop
  have hstep : tournamentRound population rng 3 none =
      tournamentRound population (SeededRandom.randomR rng).1 2
        (betterOf none (population.getD
          (jsFloorIdx (SeededRandom.randomR rng).2 population.length) default)) := rfl
  have hcand : Q (population.getD
      (jsFloorIdx (SeededRandom.randomR rng).2 population.length) default) :=
    hall _ (getD_mem _ (jsFloorIdx_lt (randomR_nonneg rng) (randomR_lt_one rng) hlen))
  have hsome : (tournamentRound population rng 3 none).2.isSome := by
    rw [hstep]
    exact tournamentRound_isSome 2 _ _ (betterOf_isSome _ _)
  have hsound : ∀ y, (tournamentRound population rng 3 none).2 = some y → Q y := by
    rw [hstep]
    exact tournamentRound_sound hpop hall 2 _ _ (betterOf_sound hcand (by intro y hy; cases hy))
  unfold tournamentSelect
  rcases hopt : (tournamentRound population rng 3 none).2 with _ | y
  · rw [hopt] at hsome; simp at hsome
  · have hQ := hsound y hopt
    simpa [hopt] using hQ

theorem crossoverGenes_inBounds {bounds : List (ℝ × ℝ)} :
    ∀ {g1 g2 : List ℝ} (rng : ℕ), genesInBounds bounds g1 → genesInBounds bounds g2 →
      genesInBounds bounds (crossoverGenes rng g1 g2).2 := by
  induction bounds with
  | nil =>
    intro g1 g2 rng h1 h2
    cases h1
    exact List.Forall₂.nil
  | cons b bs ih =>
    intro g1 g2 rng h1 h2
    cases h1 with
    | cons ha has =>
      cases h2 with
      | cons hc hcs =>
        exact List.Forall₂.cons (by by_cases hlt : (SeededRandom.randomR rng).2 < 0.5 <;>
          simp [crossoverGenes, hlt, ha, hc]) (by
            have := ih (SeededRandom.randomR rng).1 has hcs
            simpa [crossoverGenes] using this)

theorem mutateGenes_inBounds {bounds : List (ℝ × ℝ)} (hb : boundsValid bounds)
    (mp ms : ℝ) :
    ∀ {g : List ℝ} (rng : ℕ), genesInBounds bounds g →
      genesInBounds bounds (mutateGenes mp ms rng g bounds).2 := by
  induction bounds with
  | nil =>
    intro g rng h1
    cases h1
    exact List.Forall₂.nil
  | cons b bs ih =>
    intro g rng h1
    cases g with
    | nil => exact absurd (List.forall₂_nil_left_iff.mp h1) (by simp)
    | cons a gs =>
      cases h1 with
      | cons ha has =>
        have hbb : b.1 ≤ b.2 := hb b (by simp)
        have hbs : boundsValid bs := fun x hx => hb x (by simp [hx])
        by_cases hlt : (SeededRandom.randomR rng).2 < mp
        · have hrest := ih hbs (SeededRandom.gaussian (SeededRandom.randomR rng).1 0
            ((b.2 - b.1) * ms)).1 has
          simp only [mutateGenes, if_pos hlt]
          exact List.Forall₂.cons ⟨le_max_left _ _, max_le hbb (min_le_left _ _)⟩ hrest
        · have hrest := ih hbs (SeededRandom.randomR rng).1 has
          simp only [mutateGenes, if_neg hlt]
          exact List.Forall₂.cons ha hrest

theorem mutateGenes_inBounds' {bounds : List (ℝ × ℝ)} (hb : boundsValid bounds)
    (mp ms : ℝ) {g : List ℝ} (rng : ℕ) (hg : genesInBounds bounds g) :
    genesInBounds bounds (mutateGenes mp ms rng g bounds).2 :=
  mutateGenes_inBounds hb mp ms rng hg

theorem evaluatePopulation_inBounds {bounds : List (ℝ × ℝ)} {population : List Individual}
    (fitnessFunc : Individual → ℝ)
    (h : ∀ ind ∈ population, genesInBounds bounds ind.genes) :
    ∀ ind ∈ (evaluatePopulation fitnessFunc population).1, genesInBounds bounds ind.genes := by
  intro ind hind
  simp only [evaluatePopulation, List.mem_map] at hind
  obtain ⟨orig, horig, heq⟩ := hind
  rw [← heq]
  exact h orig horig

theorem evaluatePopulation_length (fitnessFunc : Individual → ℝ)
    (population : List Individual) :
    (evaluatePopulation fitnessFunc population).1.length = population.length := by
  simp [evaluatePopulation]

theorem sortByFitness_mem {population : List Individual} {ind : Individual} :
    ind ∈ sortByFitness population ↔ ind ∈ population :=
  (List.mergeSort_perm population _).mem_iff

theorem sortByFitness_length (population : List Individual) :
    (sortByFitness population).length = population.length :=
  (List.mergeSort_perm population _).length_eq

theorem makeOffspring_inBounds (opt : GeneticOptimizer) {bounds : List (ℝ × ℝ)}
    {population : List Individual} (hb : boundsValid bounds) (hpop : population ≠ [])
    (hall : ∀ x ∈ population, genesInBounds bounds x.genes) :
    ∀ (k rng : ℕ), ∀ ind ∈ (makeOffspring opt bounds population rng k).2,
      genesInBounds bounds ind.genes := by
  intro k
  induction k with
  | zero => intro rng ind h; simp [makeOffspring] at h
  | succ k ih =>
    intro rng ind h
    simp only [makeOffspring, List.mem_cons] at h
    rcases h with h | h
    · have h1 : genesInBounds bounds (tournamentSelect rng population).2.genes :=
        tournamentSelect_sound hpop hall rng
      have h2 : genesInBounds bounds
          (tournamentSelect (tournamentSelect rng population).1 population).2.genes :=
        tournamentSelect_sound hpop hall _
      have hc := crossoverGenes_inBounds
        (tournamentSelect (tournamentSelect rng population).1 population).1 h1 h2
      have hm := mutateGenes_inBounds' hb opt.mutationProb 0.1
        (crossoverGenes (tournamentSelect (tournamentSelect rng population).1 population).1
          (tournamentSelect rng population).2.genes
          (tournamentSelect (tournamentSelect rng population).1 population).2.genes).1 hc
      rw [h]
      exact hm
    · exact ih _ ind h

theorem makeOffspring_length (opt : GeneticOptimizer) (bounds : List (ℝ × ℝ))
    (population : List Individual) :
    ∀ (k rng : ℕ), (makeOffspring opt bounds population rng k).2.length = k := by
  intro k
  induction k with
  | zero => intro rng; rfl
  | succ k ih => intro rng; simp [makeOffspring, ih]

theorem headD_sound {l : List Individual} {Q : Individual → Prop} (hne : l ≠ [])
    (hall : ∀ x ∈ l, Q x) : Q (l.headD default) := by
  rcases l with _ | ⟨a, rest⟩
  · exact absurd rfl hne
  · exact hall a (by simp)

theorem gaLoop_best_inBounds {opt : GeneticOptimizer} {bounds : List (ℝ × ℝ)}
    (fitnessFunc : Individual → ℝ) (maxStagnation : ℕ) (hb : boundsValid bounds)
    (hP : 0 < opt.populationSize) :
    ∀ (k rng : ℕ) (population : List Individual) (bestEver : Individual)
      (stagnation evals : ℕ),
      population.length = opt.populationSize →
      (∀ x ∈ population, genesInBounds bounds x.genes) →
      genesInBounds bounds bestEver.genes →
      genesInBounds bounds
        (gaLoop opt fitnessFunc bounds maxStagnation k rng population bestEver
          stagnation evals).best.genes := by
  intro k
  induction k with
  | zero => intro rng population bestEver stagnation evals hlen hall hbest; exact hbest
  | succ k ih =>
    intro rng population bestEver stagnation evals hlen hall hbest
    have hpopne : population ≠ [] := by
      intro hnil
      rw [hnil] at hlen
      simp at hlen
      omega
    have hhead : genesInBounds bounds (population.headD default).genes := by
      rcases population with _ | ⟨a, rest⟩
      · exact absurd rfl hpopne
      · exact hall a (by simp)
    have hbest1 : genesInBounds bounds
        (if (population.headD default).fitness < bestEver.fitness then
          population.headD default else bestEver).genes := by
      by_cases hlt : (population.headD default).fitness < bestEver.fitness
      · rw [if_pos hlt]; exact hhead
      · rw [if_neg hlt]; exact hbest
    simp only [gaLoop]
    by_cases hstop : maxStagnation ≤
        (if (population.headD default).fitness < bestEver.fitness then 0 else stagnation + 1)
    · rw [if_pos hstop]
      exact hbest1
    · rw [if_neg hstop]
      have heliteAll : ∀ x ∈ (population.take opt.eliteCount).map fun ind =>
          Individual.mk ind.genes ind.fitness, genesInBounds bounds x.genes := by
        intro x hx
        simp only [List.mem_map] at hx
        obtain ⟨orig, horig, heq⟩ := hx
        rw [← heq]
        exact hall orig (List.mem_of_mem_take horig)
      have hoffAll := makeOffspring_inBounds opt hb hpopne hall
        (opt.populationSize - ((population.take opt.eliteCount).map fun ind =>
          Individual.mk ind.genes ind.fitness).length) rng
      have hnewAll : ∀ x ∈ ((population.take opt.eliteCount).map fun ind =>
          Individual.mk ind.genes ind.fitness) ++
          (makeOffspring opt bounds population rng
            (opt.populationSize - ((population.take opt.eliteCount).map fun ind =>
              Individual.mk ind.genes ind.fitness).length)).2,
          genesInBounds bounds x.genes := by
        intro x hx
        rcases List.mem_append.mp hx with hx | hx
        · exact heliteAll x hx
        · exact hoffAll x hx
      have hsortedAll : ∀ x ∈ sortByFitness (evaluatePopulation fitnessFunc
          (((population.take opt.eliteCount).map fun ind =>
            Individual.mk ind.genes ind.fitness) ++
            (makeOffspring opt bounds population rng
              (opt.populationSize - ((population.take opt.eliteCount).map fun ind =>
                Individual.mk ind.genes ind.fitness).length)).2)).1,
          genesInBounds bounds x.genes := by
        intro x hx
        exact evaluatePopulation_inBounds fitnessFunc hnewAll x (sortByFitness_mem.mp hx)
      have hsortlen : (sortByFitness (evaluatePopulation fitnessFunc
          (((population.take opt.eliteCount).map fun ind =>
            Individual.mk ind.genes ind.fitness) ++
            (makeOffspring opt bounds population rng
              (opt.populationSize - ((population.take opt.eliteCount).map fun ind =>
                Individual.mk ind.genes ind.fitness).length)).2)).1).length =
          opt.populationSize := by
        rw [sortByFitness_length, evaluatePopulation_length, List.length_append,
          makeOffspring_length, List.length_map, List.length_take]
        have : min opt.eliteCount population.length ≤ opt.populationSize := by
          rw [hlen]
          exact min_le_right _ _
        omega
      have hsortne : sortByFitness (evaluatePopulation fitnessFunc
          (((population.take opt.eliteCount).map fun ind =>
            Individual.mk ind.genes ind.fitness) ++
            (makeOffspring opt bounds population rng
              (opt.populationSize - ((population.take opt.eliteCount).map fun ind =>
                Individual.mk ind.genes ind.fitness).length)).2)).1 ≠ [] := by
        intro hnil
        rw [hnil] at hsortlen
        simp at hsortlen
        omega
      have hhead2 : genesInBounds bounds ((sortByFitness (evaluatePopulation fitnessFunc
          (((population.take opt.eliteCount).map fun ind =>
            Individual.mk ind.genes ind.fitness) ++
            (makeOffspring opt bounds population rng
              (opt.populationSize - ((population.take opt.eliteCount).map fun ind =>
                Individual.mk ind.genes ind.fitness).length)).2)).1).headD default).genes :=
        headD_sound hsortne hsortedAll
      apply ih
      · exact hsortlen
      · exact hsortedAll
      · by_cases hlt2 : ((sortByFitness (evaluatePopulation fitnessFunc
            (((population.take opt.eliteCount).map fun ind =>
              Individual.mk ind.genes ind.fitness) ++
              (makeOffspring opt bounds population rng
                (opt.populationSize - ((population.take opt.eliteCount).map fun ind =>
                  Individual.mk ind.genes ind.fitness).length)).2)).1).headD default).fitness <
            (if (population.headD default).fitness < bestEver.fitness then
              population.headD default else bestEver).fitness
        · rw [if_pos hlt2]; exact hhead2
        · rw [if_neg hlt2]; exact hbest1

/-- The best individual returned by `optimize` has all genes within the bounds. -/
theorem optimize_best_inBounds {opt : GeneticOptimizer} {bounds : List (ℝ × ℝ)}
    (fitnessFunc : Individual → ℝ) (rng : ℕ) (hb : boundsValid bounds)
    (hP : 0 < opt.populationSize) :
    genesInBounds bounds (opt.optimize fitnessFunc bounds rng).2.best.genes := by
  unfold GeneticOptimizer.optimize
  have hinitAll := initializePopulation_inBounds hb rng opt.populationSize
  have hevAll := evaluatePopulation_inBounds fitnessFunc hinitAll
  have hsortAll : ∀ x ∈ sortByFitness (evaluatePopulation fitnessFunc
      (initializePopulation bounds rng opt.populationSize).2).1,
      genesInBounds bounds x.genes := fun x hx => hevAll x (sortByFitness_mem.mp hx)
  have hsortlen : (sortByFitness (evaluatePopulation fitnessFunc
      (initializePopulation bounds rng opt.populationSize).2).1).length =
      opt.populationSize := by
    rw [sortByFitness_length, evaluatePopulation_length, initializePopulation_length]
  have hsortne : sortByFitness (evaluatePopulation fitnessFunc
      (initializePopulation bounds rng opt.populationSize).2).1 ≠ [] := by
    intro hnil
    rw [hnil] at hsortlen
    simp at hsortlen
    omega
  have hhead : genesInBounds bounds ((sortByFitness (evaluatePopulation fitnessFunc
      (initializePopulation bounds rng opt.populationSize).2).1).headD default).genes :=
    headD_sound hsortne hsortAll
  exact gaLoop_best_inBounds fitnessFunc _ hb hP opt.generations _ _ _ 0 _
    hsortlen hsortAll hhead

/-! ## Predictive policy (`PTSRAAlgorithm`, p-tsra.ts) -/

/-- Predicted event triples over the rollout horizon. -/
structure PredictionHorizon where
  arrivals : List ℝ
  harvests : List ℝ
  channelGains : List ℝ
deriving Inhabited

/-- The EWMA smoothing factor field `ewmaAlpha = 0.3`. -/
noncomputable def ewmaAlpha : ℝ := 0.3

/-- `calculateEWMA`: seeded with the oldest sample, folded over the rest;
the configured mean when the history is empty. -/
noncomputable def calculateEWMA (history : List ℝ) (defaultValue : ℝ) : ℝ :=
  match history with
  | [] => defaultValue
  | x :: rest => rest.foldl (fun e v => ewmaAlpha * v + (1 - ewmaAlpha) * e) x

/-- One window update of `updateHistory`: append newest, evict oldest beyond
50 samples. -/
def pushWindow (xs : List ℝ) (x : ℝ) : List ℝ :=
  let ys := xs ++ [x]
  if 50 < ys.length then ys.tail else ys

/-- `predictFuture`: per horizon slot, scale each EWMA by its uniform noise
band; the three `Math.random()` draws per slot come from the unseeded oracle
stream `noise` in source order (arrival, harvest, channel), starting at
`noiseIdx`.  Returns the predictions and the advanced stream index. -/
noncomputable def predictFuture (sensor : SensorConfig)
    (arrHist harvHist chanHist : List ℝ) (noise : ℕ → ℝ) (noiseIdx : ℕ) (horizon : ℕ) :
    PredictionHorizon × ℕ :=
  let ewmaArrival := calculateEWMA arrHist sensor.J_mean_bits_per_slot
  let ewmaHarvest := calculateEWMA harvHist sensor.harvest_mean_J_per_slot
  let ewmaChannel := calculateEWMA chanHist sensor.channel_mean_gain
  (⟨(List.range horizon).map fun h => ewmaArrival * (0.9 + noise (noiseIdx + 3 * h) * 0.2),
    (List.range horizon).map fun h => ewmaHarvest * (0.8 + noise (noiseIdx + 3 * h + 1) * 0.4),
    (List.range horizon).map fun h => ewmaChannel * (0.85 + noise (noiseIdx + 3 * h + 2) * 0.3)⟩,
   noiseIdx + 3 * horizon)

/-- The body of the rollout loop of `fitnessFunction` at horizon slot `h`:
updates the simulated state and accumulates the cost (penalties first, then the
discounted slot cost, exactly in source order). -/
noncomputable def fitnessSlotCost (alg : TSRAAlgorithm) (sensor : SensorConfig)
    (f_u p_u alpha : ℝ) (h : ℕ) (arrival harvest channelGain : ℝ)
    (acc : SensorState × ℝ) : SensorState × ℝ :=
  let simState := acc.1
  let C_l := f_u * alg.tau / sensor.delta_cycles_per_bit
  let snr := p_u * channelGain / alg.globalParams.noise_power_W
  let C_o := alg.bandwidth * Real.logb 2 (1 + snr) * alg.tau
  let localEnergy := alg.globalParams.theta * f_u ^ 3 * alg.tau
  let txEnergy := p_u * alg.tau
  let totalEnergy := localEnergy + txEnergy
  let effectiveEnergy := max 0 (localEnergy - harvest)
  let localArrival := (1 - alpha) * arrival
  let offloadArrival := alpha * arrival
  let new_H_l := max 0 (simState.H_l - C_l) + localArrival
  let new_H_o := max 0 (simState.H_o - C_o) + offloadArrival
  let new_B_u := max 0 (simState.B_u - effectiveEnergy) + harvest
  let drift := new_H_l * (localArrival - C_l) + new_H_o * (offloadArrival - C_o)
  let slotCost := alg.V * totalEnergy + drift
  let pen1 := if new_B_u < 0 then (1000000 : ℝ) else 0
  let pen2 := if sensor.f_max_Hz < f_u then (1000000 : ℝ) else 0
  let pen3 := if sensor.p_max_W < p_u then (1000000 : ℝ) else 0
  (⟨new_H_l, new_H_o, simState.H_k, new_B_u⟩,
   acc.2 + pen1 + pen2 + pen3 + (0.95 : ℝ) ^ h * slotCost)

/-- `fitnessFunction`: denormalize the genes, simulate
`min(horizon, |predictions|)` rollout slots from the current state, and return
the accumulated cost. -/
noncomputable def fitnessFunction (alg : TSRAAlgorithm) (horizon : ℕ)
    (individual : Individual) (sensor : SensorConfig) (state : SensorState)
    (predictions : PredictionHorizon) : ℝ :=
  let alpha := individual.genes.getD 0 0
  let fNorm := individual.genes.getD 1 0
  let pNorm := individual.genes.getD 2 0
  let f_u := fNorm * sensor.f_max_Hz
  let p_u := pNorm * sensor.p_max_W
  ((List.range (min horizon predictions.arrivals.length)).foldl
    (fun acc h => fitnessSlotCost alg sensor f_u p_u alpha h
      (predictions.arrivals.getD h 0) (predictions.harvests.getD h 0)
      (predictions.channelGains.getD h 0) acc)
    (state, 0)).2

/-- The gene bounds of `optimizeAlpha`: offload fraction, normalized CPU
frequency (floored at 0.1), normalized transmit power. -/
noncomputable def ptsraBounds : List (ℝ × ℝ) := [(0, 1), (0.1, 1), (0, 1)]

/-- `optimizeAlpha`: run the genetic optimizer over the three genes and
denormalize the best individual.  Returns `(alpha, f_u, p_u)` and the advanced
optimizer RNG state.  (The per-generation log entries only feed telemetry and
are dropped here.) -/
noncomputable def optimizeAlpha (alg : TSRAAlgorithm) (opt : GeneticOptimizer)
    (horizon : ℕ) (sensor : SensorConfig) (state : SensorState)
    (predictions : PredictionHorizon) (gaRng : ℕ) : (ℝ × ℝ × ℝ) × ℕ :=
  let r := opt.optimize
    (fun ind => fitnessFunction alg horizon ind sensor state predictions) ptsraBounds gaRng
  ((r.2.best.genes.getD 0 0,
    r.2.best.genes.getD 1 0 * sensor.f_max_Hz,
    r.2.best.genes.getD 2 0 * sensor.p_max_W), r.1)

/-- One iteration of the sensor loop in `executeSlotPredictive`: update the
rolling windows, predict, choose `(alpha, f_u, p_u)` through the optimizer when
`horizon > 0` (falling back to the three closed-form TSRA decisions otherwise),
commit the fractional queue/battery update, and derive `kappa = alpha >= 0.5`.
Returns the per-sensor outputs, updated windows, advanced noise index and
optimizer RNG. -/
noncomputable def ptsraSensorStep (alg : TSRAAlgorithm) (opt : GeneticOptimizer)
    (horizon : ℕ) (sensor : SensorConfig) (state : SensorState) (ev : SlotEvents)
    (xi_u : ℝ) (edgeServer : EdgeServerConfig) (arrHist harvHist chanHist : List ℝ)
    (noise : ℕ → ℝ) (noiseIdx gaRng : ℕ) :
    SensorStepOut × (List ℝ × List ℝ × List ℝ) × ℕ × ℕ :=
  let arrHist2 := pushWindow arrHist ev.arrival
  let harvHist2 := pushWindow harvHist ev.harvest
  let chanHist2 := pushWindow chanHist ev.channelGain
  let pf := predictFuture sensor arrHist2 harvHist2 chanHist2 noise noiseIdx horizon
  let afp : (ℝ × ℝ × ℝ) × ℕ :=
    if 0 < horizon then
      optimizeAlpha alg opt horizon sensor state pf.1 gaRng
    else
      ((taskSchedulingDecision state,
        localCPUFrequencyAllocation alg sensor state,
        transmissionPowerAllocation alg sensor state ev.channelGain), gaRng)
  let alpha := afp.1.1
  let f_u := afp.1.2.1
  let p_u := afp.1.2.2
  let delta := sensor.delta_cycles_per_bit
  let C_l := f_u * alg.tau / delta
  let snr := p_u * ev.channelGain / alg.globalParams.noise_power_W
  let C_o := alg.bandwidth * Real.logb 2 (1 + snr) * alg.tau
  let C_k := xi_u * edgeServer.f_k_Hz * alg.tau / delta
  let localEnergy := alg.globalParams.theta * f_u ^ 3 * alg.tau
  let txEnergy := p_u * alg.tau
  let localArrival := (1 - alpha) * ev.arrival
  let offloadArrival := alpha * ev.arrival
  let new_H_l := max 0 (state.H_l - C_l) + localArrival
  let new_H_o := max 0 (state.H_o - C_o) + offloadArrival
  let new_H_k := max 0 (state.H_k - C_k) + C_o
  let new_B_u := batteryUpdate state.B_u localEnergy ev.harvest
  let kappa : ℝ := if 0.5 ≤ alpha then 1 else 0
  (⟨⟨kappa, alpha, f_u, p_u, xi_u⟩,
    ⟨new_H_l, new_H_o, new_H_k, new_B_u⟩,
    ⟨new_H_l, new_H_o, new_H_k, alpha, localEnergy, txEnergy, p_u, f_u,
     ev.arrival, ev.harvest, new_B_u⟩⟩,
   (arrHist2, harvHist2, chanHist2), pf.2, afp.2)

/-- The per-sensor rolling windows of the predictive policy, positionally
indexed (the source keys them by the unique sensor id). -/
structure PTSRAHistories where
  arrivalHistory : ℕ → List ℝ
  harvestHistory : ℕ → List ℝ
  channelHistory : ℕ → List ℝ

/-- The sensor loop of `executeSlotPredictive`, threading windows, the noise
stream index and the optimizer RNG through the sensors in order. -/
noncomputable def ptsraSlotAux (alg : TSRAAlgorithm) (opt : GeneticOptimizer)
    (horizon : ℕ) (sensors : List SensorConfig) (states : List SensorState)
    (events : List SlotEvents) (xis : List ℝ) (edgeServer : EdgeServerConfig)
    (noise : ℕ → ℝ) :
    List ℕ → PTSRAHistories → ℕ → ℕ →
      List SensorStepOut × PTSRAHistories × ℕ × ℕ
  | [], hist, noiseIdx, gaRng => ([], hist, noiseIdx, gaRng)
  | i :: rest, hist, noiseIdx, gaRng =>
    let s := ptsraSensorStep alg opt horizon (sensors.getD i default)
      (states.getD i default) (events.getD i default) (xis.getD i 0) edgeServer
      (hist.arrivalHistory i) (hist.harvestHistory i) (hist.channelHistory i)
      noise noiseIdx gaRng
    let hist2 : PTSRAHistories :=
      ⟨fun j => if j = i then s.2.1.1 else hist.arrivalHistory j,
       fun j => if j = i then s.2.1.2.1 else hist.harvestHistory j,
       fun j => if j = i then s.2.1.2.2 else hist.channelHistory j⟩
    let q := ptsraSlotAux alg opt horizon sensors states events xis edgeServer noise
      rest hist2 s.2.2.1 s.2.2.2
    (s.1 :: q.1, q.2.1, q.2.2.1, q.2.2.2)

/-- Output of `executeSlotPredictive`. -/
structure PredictiveSlotOut where
  decisions : List SlotDecision
  newStates : List SensorState
  sensorResults : List SensorSlotResult
  edgeResult : EdgeSlotResult
  hist : PTSRAHistories
  noiseIdx : ℕ
  gaRng : ℕ

/-- `executeSlotPredictive` with the realized stochastic draws of the slot given
as inputs, one `SlotEvents` per sensor in sensor order. -/
noncomputable def executeSlotPredictive (alg : TSRAAlgorithm) (opt : GeneticOptimizer)
    (horizon : ℕ) (sensors : List SensorConfig) (states : List SensorState)
    (events : List SlotEvents) (edgeServer : EdgeServerConfig) (noise : ℕ → ℝ)
    (hist : PTSRAHistories) (noiseIdx gaRng : ℕ) : PredictiveSlotOut :=
  let xis := edgeServerAllocation sensors states
  let q := ptsraSlotAux alg opt horizon sensors states events xis edgeServer noise
    (List.range sensors.length) hist noiseIdx gaRng
  ⟨q.1.map (·.decision), q.1.map (·.newState), q.1.map (·.result),
   ⟨(List.range sensors.length).map fun i =>
     (xis.getD i 0,
      xis.getD i 0 * edgeServer.f_k_Hz * alg.tau / (sensors.getD i default).delta_cycles_per_bit)⟩,
   q.2.1, q.2.2.1, q.2.2.2⟩

/-- Cross-slot state of a predictive run. -/
structure PTSRARun where
  states : List SensorState
  hist : PTSRAHistories
  noiseIdx : ℕ
  gaRng : ℕ

/-- Predictive-policy run: state at each slot boundary.  `gaSeed` seeds the
optimizer RNG (`new SeededRandom(seed)` inside `GeneticOptimizer`). -/
noncomputable def ptsraSimulate (alg : TSRAAlgorithm) (opt : GeneticOptimizer)
    (horizon : ℕ) (sensors : List SensorConfig) (edgeServer : EdgeServerConfig)
    (events : ℕ → ℕ → SlotEvents) (noise : ℕ → ℝ) (gaSeed : ℕ) : ℕ → PTSRARun
  | 0 =>
    ⟨initializeSensorStates sensors, ⟨fun _ => [], fun _ => [], fun _ => []⟩, 0,
     SeededRandom.init gaSeed⟩
  | n + 1 =>
    let prev := ptsraSimulate alg opt horizon sensors edgeServer events noise gaSeed n
    let r := executeSlotPredictive alg opt horizon sensors prev.states
      ((List.range sensors.length).map (events n)) edgeServer noise prev.hist
      prev.noiseIdx prev.gaRng
    ⟨r.newStates, r.hist, r.noiseIdx, r.gaRng⟩

/-! ## Simulation driver (`runSimulation`, simulator.ts) -/

/-- The status union of `SimulationState` (no other status value exists in the
source). -/
inductive SimStatus
  | running
  | completed
  | error
  | cancelled
deriving DecidableEq

/-- The per-slot algorithm tag. -/
inductive AlgorithmTag
  | TSRA
  | PTSRA
deriving DecidableEq

structure GlobalMetrics where
  total_backlog_bits : ℝ
  total_energy_J : ℝ
  best_fitness : ℝ
  avg_latency_ms : ℝ

structure SlotResult where
  slot : ℕ
  sensor_results : List SensorSlotResult
  edge_results : EdgeSlotResult
  global_metrics : GlobalMetrics
  algorithm : AlgorithmTag

/-- `SimulationState` (the `run_id` UUID string and the flat optimizer log are
dropped: no claim concerns them). -/
structure SimulationState where
  status : SimStatus
  current_slot : ℕ
  total_slots : ℕ
  tsra_results : List SlotResult
  ptsra_results : List SlotResult

/-- `calculateGlobalMetrics`: one accumulating pass over the sensor results
(backlog, energy, latency), exactly as the source loop; the average divides by
the number of sensors.  With zero sensors the JS quotient `0/0` is `NaN`
(not an exception); the real-number model returns 0 there, and no claim
depends on that value. -/
noncomputable def calculateGlobalMetrics (sensorResults : List SensorSlotResult) :
    GlobalMetrics :=
  let acc := sensorResults.foldl
    (fun (t : ℝ × ℝ × ℝ) sensor =>
      (t.1 + (sensor.H_l + sensor.H_o + sensor.H_k),
       t.2.1 + (sensor.local_energy_J + sensor.tx_energy_J),
       t.2.2 + (sensor.H_l + sensor.H_o + sensor.H_k) /
         (if 0 < sensor.arrival_bits then sensor.arrival_bits else 100000) * 1000))
    (0, 0, 0)
  ⟨acc.1, acc.2.1, -acc.2.1 - 0.01 * acc.1, acc.2.2 / sensorResults.length⟩

/-- Modelled from the spec sentence `avg_latency_ms = mean over sensors of
(H_l+H_o+H_k)/max(A, 10^5) * 1000`. -/
noncomputable def avgLatencySpec (sensorResults : List SensorSlotResult) : ℝ :=
  (sensorResults.map fun sensor =>
    (sensor.H_l + sensor.H_o + sensor.H_k) / max sensor.arrival_bits 100000 * 1000).sum /
    sensorResults.length

/-- Experiment configuration (the fields the driver consumes; only the first
edge server is used by the source). -/
structure ExperimentConfig where
  seed : ℕ
  slots : ℕ
  slot_duration_s : ℝ
  bandwidth_Hz : ℝ
  V : ℝ
  prediction_horizon : ℕ
  optimizer : GeneticOptimizer
  global_params : GlobalParams
  sensors : List SensorConfig
  edge_servers : List EdgeServerConfig

/-- The slot loop of `runSimulation`: run the Baseline slot, then the
Predictive slot, collect both `SlotResult`s in slot order.  The stochastic
draws of the two policies come from the oracle streams `tsraEvents` and
`ptsraEvents` (the two independently seeded member RNGs), predictor noise from
`noise`. -/
noncomputable def simLoop (alg : TSRAAlgorithm) (opt : GeneticOptimizer) (horizon : ℕ)
    (sensors : List SensorConfig) (edgeServer : EdgeServerConfig)
    (tsraEvents ptsraEvents : ℕ → ℕ → SlotEvents) (noise : ℕ → ℝ) :
    ℕ → ℕ → List SensorState → PTSRARun → List SlotResult × List SlotResult
  | _, 0, _, _ => ([], [])
  | slot, remaining + 1, tsraStates, prun =>
    let t := alg.executeSlot sensors tsraStates
      ((List.range sensors.length).map (tsraEvents slot)) edgeServer
    let tRes : SlotResult := ⟨slot, t.sensorResults, t.edgeResult,
      calculateGlobalMetrics t.sensorResults, AlgorithmTag.TSRA⟩
    let p := executeSlotPredictive alg opt horizon sensors prun.states
      ((List.range sensors.length).map (ptsraEvents slot)) edgeServer noise prun.hist
      prun.noiseIdx prun.gaRng
    let pRes : SlotResult := ⟨slot, p.sensorResults, p.edgeResult,
      calculateGlobalMetrics p.sensorResults, AlgorithmTag.PTSRA⟩
    let rest := simLoop alg opt horizon sensors edgeServer tsraEvents ptsraEvents noise
      (slot + 1) remaining t.newStates ⟨p.newStates, p.hist, p.noiseIdx, p.gaRng⟩
    (tRes :: rest.1, pRes :: rest.2)

/-- `runSimulation`: initialize both state copies, run every slot, and return
status `completed`.  The source performs no configuration validation at entry;
its try/catch captures runtime exceptions only, and every operation reached
with an empty sensor list is total in JS as well (the division by zero inside
the metrics yields `NaN`, not an exception), so the embedded driver reaches
the `completed` status exactly as the source does on such inputs. -/
noncomputable def runSimulation (config : ExperimentConfig)
    (tsraEvents ptsraEvents : ℕ → ℕ → SlotEvents) (noise : ℕ → ℝ) : SimulationState :=
  let alg : TSRAAlgorithm :=
    ⟨config.V, config.slot_duration_s, config.bandwidth_Hz, config.global_params⟩
  let edgeServer := config.edge_servers.headD default
  let prun0 : PTSRARun :=
    ⟨initializeSensorStates config.sensors, ⟨fun _ => [], fun _ => [], fun _ => []⟩, 0,
     SeededRandom.init (config.seed + 1)⟩
  let r := simLoop alg config.optimizer config.prediction_horizon config.sensors edgeServer
    tsraEvents ptsraEvents noise 0 config.slots (initializeSensorStates config.sensors) prun0
  ⟨SimStatus.completed, config.slots - 1, config.slots, r.1, r.2⟩

/-! ## C5: battery conservation -/

/-- C5 counterexample: at `B = 0`, `E_loc = 1`, `harvest = 0` the committed
battery is `max(0, 0-1) + 0 = 0`, so no `clip_loss ≥ 0` satisfies
`B' - B = harvest - E_loc - clip_loss`, and `B' ≤ B + harvest - E_loc` fails:
the zero-clipping adds energy back relative to the unclipped balance, it never
subtracts. -/
theorem C5_counterexample :
    (¬ ∃ clipLoss : ℝ, 0 ≤ clipLoss ∧ batteryUpdate 0 1 0 - 0 = 0 - 1 - clipLoss) ∧
    ¬ batteryUpdate 0 1 0 ≤ 0 + 0 - 1 := by
  have hval : batteryUpdate 0 1 0 = 0 := by
    unfold batteryUpdate
    rw [show (0:ℝ) - 1 = -1 by norm_num, max_eq_left (by norm_num : (-1:ℝ) ≤ 0)]
    norm_num
  constructor
  · rintro ⟨c, hc, h⟩
    rw [hval] at h
    linarith
  · rw [hval]
    norm_num

/-- C5 amended: for every sensor and slot of either policy the battery update
`B' = max(0, B - E_loc) + harvest` (the shared `batteryUpdate`) satisfies
`B' - B = harvest - E_loc + clip_gain` with `clip_gain = max(0, E_loc - B) ≥ 0`,
so `B' ≥ B + harvest - E_loc` always holds, with equality when `B ≥ E_loc`:
the clip at zero discards the energy deficit that would have driven B negative,
raising (not lowering) the balance. -/
theorem C5_battery_conservation (B E_loc harvest : ℝ) :
    0 ≤ max 0 (E_loc - B) ∧
    batteryUpdate B E_loc harvest - B = harvest - E_loc + max 0 (E_loc - B) ∧
    B + harvest - E_loc ≤ batteryUpdate B E_loc harvest ∧
    (E_loc ≤ B → batteryUpdate B E_loc harvest = B + harvest - E_loc) := by
  unfold batteryUpdate
  rcases le_total E_loc B with h | h
  · rw [max_eq_right (by linarith : (0:ℝ) ≤ B - E_loc),
      max_eq_left (by linarith : E_loc - B ≤ 0)]
    exact ⟨le_refl 0, by ring, by linarith, fun _ => by ring⟩
  · rw [max_eq_left (by linarith : B - E_loc ≤ 0),
      max_eq_right (by linarith : (0:ℝ) ≤ E_loc - B)]
    refine ⟨by linarith, by ring, by linarith, fun h2 => ?_⟩
    have hEB : E_loc = B := le_antisymm h2 h
    rw [hEB]
    ring

theorem C5_battery_conservation_witness :
    0 ≤ max 0 ((1:ℝ) - 2) ∧
    batteryUpdate 2 1 5 - 2 = 5 - 1 + max 0 ((1:ℝ) - 2) ∧
    2 + 5 - 1 ≤ batteryUpdate 2 1 5 ∧
    batteryUpdate 2 1 5 = 2 + 5 - 1 :=
  ⟨(C5_battery_conservation 2 1 5).1, (C5_battery_conservation 2 1 5).2.1,
   (C5_battery_conservation 2 1 5).2.2.1,
   (C5_battery_conservation 2 1 5).2.2.2 (by norm_num)⟩

/-! ## C8: the average-latency metric -/

theorem metrics_foldl_eq (l : List SensorSlotResult) :
    ∀ a b c : ℝ,
      l.foldl (fun (t : ℝ × ℝ × ℝ) sensor =>
        (t.1 + (sensor.H_l + sensor.H_o + sensor.H_k),
         t.2.1 + (sensor.local_energy_J + sensor.tx_energy_J),
         t.2.2 + (sensor.H_l + sensor.H_o + sensor.H_k) /
           (if 0 < sensor.arrival_bits then sensor.arrival_bits else 100000) * 1000))
        (a, b, c) =
      (a + (l.map fun s => s.H_l + s.H_o + s.H_k).sum,
       b + (l.map fun s => s.local_energy_J + s.tx_energy_J).sum,
       c + (l.map fun s => (s.H_l + s.H_o + s.H_k) /
         (if 0 < s.arrival_bits then s.arrival_bits else 100000) * 1000).sum) := by
  induction l with
  | nil => intro a b c; simp
  | cons x xs ih =>
    intro a b c
    simp only [List.foldl_cons, List.map_cons, List.sum_cons, ih, Prod.mk.injEq]
    refine ⟨by ring, by ring, by ring⟩

/-- C8 amended: `avg_latency_ms` equals the mean over sensors of
`(H_l+H_o+H_k) / D * 1000` where the denominator D is the arrival `A` itself
whenever `A > 0` and the fallback `10^5` only when `A ≤ 0` (the code divides by
`A`, not by `max(A, 10^5)`). -/
theorem C8_avg_latency (sensorResults : List SensorSlotResult) :
    (calculateGlobalMetrics sensorResults).avg_latency_ms =
      (sensorResults.map fun s => (s.H_l + s.H_o + s.H_k) /
        (if 0 < s.arrival_bits then s.arrival_bits else 100000) * 1000).sum /
        sensorResults.length := by
  unfold calculateGlobalMetrics
  rw [metrics_foldl_eq]
  norm_num

/-- A sensor record with backlog 1 bit and arrival 1 bit: a realizable record
with `0 < A < 10^5`, where the code and the spec formula diverge. -/
noncomputable def latencyProbe : SensorSlotResult :=
  ⟨1, 0, 0, 0, 0, 0, 0, 0, 1, 0, 0⟩

/-- C8 counterexample: for one sensor with backlog 1 and arrival 1 the code
divides by `A = 1` and reports 1000 ms, while the claimed formula divides by
`max(A, 10^5) = 10^5` and gives 0.01 ms. -/
theorem C8_counterexample :
    (calculateGlobalMetrics [latencyProbe]).avg_latency_ms = 1000 ∧
    avgLatencySpec [latencyProbe] = 1 / 100 ∧
    (calculateGlobalMetrics [latencyProbe]).avg_latency_ms ≠ avgLatencySpec [latencyProbe] := by
  have h1 : (calculateGlobalMetrics [latencyProbe]).avg_latency_ms = 1000 := by
    unfold calculateGlobalMetrics latencyProbe
    simp only [List.foldl_cons, List.foldl_nil, List.length_singleton]
    rw [if_pos (by norm_num : (0:ℝ) < 1)]
    norm_num
  have h2 : avgLatencySpec [latencyProbe] = 1 / 100 := by
    unfold avgLatencySpec latencyProbe
    simp only [List.map_cons, List.map_nil, List.sum_cons, List.sum_nil, List.length_singleton]
    rw [max_eq_right (by norm_num : (1:ℝ) ≤ 100000)]
    norm_num
  refine ⟨h1, h2, ?_⟩
  rw [h1, h2]
  norm_num

/-! ## C4: edge-server allocation -/

theorem edgeWeights_nonneg {sensors : List SensorConfig} {states : List SensorState}
    (hk : ∀ st ∈ states, 0 ≤ st.H_k) (hw : ∀ se ∈ sensors, 0 ≤ se.priority_weight) :
    ∀ w ∈ edgeWeights sensors states, 0 ≤ w := by
  unfold edgeWeights
  induction states generalizing sensors with
  | nil => intro w hww; simp at hww
  | cons st sts ih =>
    intro w hww
    cases sensors with
    | nil => simp at hww
    | cons se ses =>
      simp only [List.zipWith_cons_cons, List.mem_cons] at hww
      rcases hww with h | h
      · rw [h]
        exact mul_nonneg (hk st (by simp)) (hw se (by simp))
      · exact ih (fun x hx => hk x (by simp [hx])) (fun x hx => hw x (by simp [hx])) w h

theorem sum_map_const {α : Type} (l : List α) (c : ℝ) :
    (l.map fun _ => c).sum = l.length * c := by
  induction l with
  | nil => simp
  | cons x xs ih =>
    simp only [List.map_cons, List.sum_cons, ih, List.length_cons]
    push_cast
    ring

theorem sum_map_div (l : List ℝ) (c : ℝ) : (l.map fun w => w / c).sum = l.sum / c := by
  induction l with
  | nil => simp
  | cons x xs ih => simp [ih, add_div]

theorem edgeWeights_length {sensors : List SensorConfig} {states : List SensorState}
    (hlen : states.length = sensors.length) :
    (edgeWeights sensors states).length = sensors.length := by
  unfold edgeWeights
  rw [List.length_zipWith, hlen, min_self]

/-- C4.  For a non-empty sensor list with non-negative edge backlogs and
weights: with positive total weight each `ξ_i` equals the exact proportional
share `w_i / Σw` (the clip at 1 is inactive), with zero total weight each
`ξ_i` equals the uniform `1/n`; every `ξ` lies in `[0, 1]` and the sum is at
most `1 + 10⁻⁹`. -/
theorem C4_edge_allocation (sensors : List SensorConfig) (states : List SensorState)
    (hne : sensors ≠ []) (hlen : states.length = sensors.length)
    (hk : ∀ st ∈ states, 0 ≤ st.H_k) (hw : ∀ se ∈ sensors, 0 ≤ se.priority_weight) :
    (0 < (edgeWeights sensors states).sum →
      ∀ i, i < sensors.length →
        (edgeServerAllocation sensors states).getD i 0 =
          (edgeWeights sensors states).getD i 0 / (edgeWeights sensors states).sum) ∧
    ((edgeWeights sensors states).sum = 0 →
      ∀ i, i < sensors.length →
        (edgeServerAllocation sensors states).getD i 0 = 1 / sensors.length) ∧
    (∀ x ∈ edgeServerAllocation sensors states, 0 ≤ x ∧ x ≤ 1) ∧
    (edgeServerAllocation sensors states).sum ≤ 1 + 1 / 1000000000 := by
  have hwlen : (edgeWeights sensors states).length = sensors.length := edgeWeights_length hlen
  have hwnn : ∀ w ∈ edgeWeights sensors states, 0 ≤ w := edgeWeights_nonneg hk hw
  have hnpos : 0 < sensors.length := List.length_pos.mpr hne
  have hnR : (0:ℝ) < sensors.length := by exact_mod_cast hnpos
  refine ⟨?_, ?_, ?_, ?_⟩
  · intro htot i hi
    have hi2 : i < (edgeWeights sensors states).length := by rw [hwlen]; exact hi
    have hmem : (edgeWeights sensors states).getD i 0 ∈ edgeWeights sensors states :=
      getD_mem 0 hi2
    have hle : (edgeWeights sensors states).getD i 0 ≤ (edgeWeights sensors states).sum :=
      List.single_le_sum hwnn _ hmem
    unfold edgeServerAllocation
    rw [List.getD_eq_getElem _ _ (by rw [List.length_map]; exact hi2),
      List.getElem_map, if_pos htot, ← List.getD_eq_getElem _ 0 hi2,
      min_eq_right ((div_le_one htot).mpr hle)]
  · intro htot i hi
    have hi2 : i < (edgeWeights sensors states).length := by rw [hwlen]; exact hi
    unfold edgeServerAllocation
    rw [List.getD_eq_getElem _ _ (by rw [List.length_map]; exact hi2),
      List.getElem_map, if_neg (by rw [htot]; exact lt_irrefl 0),
      min_eq_right (by
        rw [div_le_one hnR]
        exact_mod_cast hnpos)]
  · intro x hx
    unfold edgeServerAllocation at hx
    obtain ⟨w, hwmem, hweq⟩ := List.mem_map.mp hx
    by_cases htot : 0 < (edgeWeights sensors states).sum
    · rw [if_pos htot] at hweq
      refine ⟨?_, hweq ▸ min_le_left _ _⟩
      rw [← hweq]
      exact le_min (by norm_num) (div_nonneg (hwnn w hwmem) (le_of_lt htot))
    · rw [if_neg htot] at hweq
      refine ⟨?_, hweq ▸ min_le_left _ _⟩
      rw [← hweq]
      exact le_min (by norm_num) (div_nonneg (by norm_num) (le_of_lt hnR))
  · by_cases htot : 0 < (edgeWeights sensors states).sum
    · have hsum1 : (edgeServerAllocation sensors states).sum ≤ 1 := by
        unfold edgeServerAllocation
        simp only [if_pos htot]
        calc ((edgeWeights sensors states).map fun w =>
              min 1 (w / (edgeWeights sensors states).sum)).sum
            ≤ ((edgeWeights sensors states).map fun w =>
              w / (edgeWeights sensors states).sum).sum := by
              apply List.sum_le_sum
              intro w hwmem
              exact min_le_right _ _
          _ = (edgeWeights sensors states).sum / (edgeWeights sensors states).sum :=
              sum_map_div _ _
          _ = 1 := div_self (ne_of_gt htot)
      linarith
    · have htot0 : (edgeWeights sensors states).sum = 0 :=
        le_antisymm (not_lt.mp htot) (List.sum_nonneg hwnn)
      have hsum1 : (edgeServerAllocation sensors states).sum = 1 := by
        unfold edgeServerAllocation
        simp only [if_neg htot]
        have hconst : ((edgeWeights sensors states).map fun _ =>
            min 1 (1 / (sensors.length : ℝ))).sum =
            ((edgeWeights sensors states).length : ℝ) * min 1 (1 / (sensors.length : ℝ)) :=
          sum_map_const _ _
        rw [hconst, hwlen, min_eq_right (by
          rw [div_le_one hnR]
          exact_mod_cast hnpos)]
        field_simp
      linarith

/-- A one-sensor probe configuration for the allocation witness. -/
noncomputable def c4sensor : SensorConfig :=
  ⟨0, 0, 0, 0, 0, 0, 0, 0, 1, OffloadMode.fractional⟩

noncomputable def c4state : SensorState := ⟨0, 0, 2, 0⟩

theorem C4_edge_allocation_witness :
    ([c4sensor] : List SensorConfig) ≠ [] ∧
    ((0 < (edgeWeights [c4sensor] [c4state]).sum →
      ∀ i, i < ([c4sensor] : List SensorConfig).length →
        (edgeServerAllocation [c4sensor] [c4state]).getD i 0 =
          (edgeWeights [c4sensor] [c4state]).getD i 0 /
            (edgeWeights [c4sensor] [c4state]).sum) ∧
    ((edgeWeights [c4sensor] [c4state]).sum = 0 →
      ∀ i, i < ([c4sensor] : List SensorConfig).length →
        (edgeServerAllocation [c4sensor] [c4state]).getD i 0 =
          1 / ([c4sensor] : List SensorConfig).length) ∧
    (∀ x ∈ edgeServerAllocation [c4sensor] [c4state], 0 ≤ x ∧ x ≤ 1) ∧
    (edgeServerAllocation [c4sensor] [c4state]).sum ≤ 1 + 1 / 1000000000) :=
  ⟨by simp,
   C4_edge_allocation [c4sensor] [c4state] (by simp) rfl
     (by
       intro st hst
       simp only [List.mem_singleton] at hst
       subst hst
       show (0:ℝ) ≤ (2:ℝ)
       norm_num)
     (by
       intro se hse
       simp only [List.mem_singleton] at hse
       subst hse
       show (0:ℝ) ≤ (1:ℝ)
       norm_num)⟩

/-! ## C6: empty sensor list -/

theorem executeSlot_nil (alg : TSRAAlgorithm) (ts : List SensorState)
    (ev : List SlotEvents) (edgeServer : EdgeServerConfig) :
    (alg.executeSlot [] ts ev edgeServer).sensorResults = [] := by
  simp [TSRAAlgorithm.executeSlot]

theorem executeSlotPredictive_nil (alg : TSRAAlgorithm) (opt : GeneticOptimizer)
    (horizon : ℕ) (ts : List SensorState) (ev : List SlotEvents)
    (edgeServer : EdgeServerConfig) (noise : ℕ → ℝ) (hist : PTSRAHistories)
    (noiseIdx gaRng : ℕ) :
    (executeSlotPredictive alg opt horizon [] ts ev edgeServer noise hist
      noiseIdx gaRng).sensorResults = [] := by
  simp [executeSlotPredictive, ptsraSlotAux]

theorem simLoop_empty (alg : TSRAAlgorithm) (opt : GeneticOptimizer) (horizon : ℕ)
    (edgeServer : EdgeServerConfig) (tsraEvents ptsraEvents : ℕ → ℕ → SlotEvents)
    (noise : ℕ → ℝ) :
    ∀ (remaining slot : ℕ) (ts : List SensorState) (pr : PTSRARun),
      (simLoop alg opt horizon [] edgeServer tsraEvents ptsraEvents noise
        slot remaining ts pr).1.length = remaining ∧
      (simLoop alg opt horizon [] edgeServer tsraEvents ptsraEvents noise
        slot remaining ts pr).2.length = remaining ∧
      (∀ r ∈ (simLoop alg opt horizon [] edgeServer tsraEvents ptsraEvents noise
        slot remaining ts pr).1, r.sensor_results = []) ∧
      (∀ r ∈ (simLoop alg opt horizon [] edgeServer tsraEvents ptsraEvents noise
        slot remaining ts pr).2, r.sensor_results = []) := by
  intro remaining
  induction remaining with
  | zero =>
    intro slot ts pr
    refine ⟨rfl, rfl, ?_, ?_⟩ <;> intro r hr <;> simp [simLoop] at hr
  | succ k ih =>
    intro slot ts pr
    obtain ⟨ih1, ih2, ih3, ih4⟩ := ih (slot + 1)
      ((alg.executeSlot [] ts ((List.range ([] : List SensorConfig).length).map
        (tsraEvents slot)) edgeServer).newStates)
      ⟨(executeSlotPredictive alg opt horizon [] pr.states
          ((List.range ([] : List SensorConfig).length).map (ptsraEvents slot)) edgeServer
          noise pr.hist pr.noiseIdx pr.gaRng).newStates,
        (executeSlotPredictive alg opt horizon [] pr.states
          ((List.range ([] : List SensorConfig).length).map (ptsraEvents slot)) edgeServer
          noise pr.hist pr.noiseIdx pr.gaRng).hist,
        (executeSlotPredictive alg opt horizon [] pr.states
          ((List.range ([] : List SensorConfig).length).map (ptsraEvents slot)) edgeServer
          noise pr.hist pr.noiseIdx pr.gaRng).noiseIdx,
        (executeSlotPredictive alg opt horizon [] pr.states
          ((List.range ([] : List SensorConfig).length).map (ptsraEvents slot)) edgeServer
          noise pr.hist pr.noiseIdx pr.gaRng).gaRng⟩
    refine ⟨?_, ?_, ?_, ?_⟩
    · simp only [simLoop, List.length_cons]
      rw [ih1]
    · simp only [simLoop, List.length_cons]
      rw [ih2]
    · intro r hr
      simp only [simLoop, List.mem_cons] at hr
      rcases hr with hr | hr
      · rw [hr]
        exact executeSlot_nil alg ts
          ((List.range ([] : List SensorConfig).length).map (tsraEvents slot)) edgeServer
      · exact ih3 r hr
    · intro r hr
      simp only [simLoop, List.mem_cons] at hr
      rcases hr with hr | hr
      · rw [hr]
        exact executeSlotPredictive_nil alg opt horizon pr.states
          ((List.range ([] : List SensorConfig).length).map (ptsraEvents slot)) edgeServer
          noise pr.hist pr.noiseIdx pr.gaRng
      · exact ih4 r hr

/-- C6 amended: `runSimulation` performs no configuration validation at entry.
With an empty sensor list it is not rejected — there is no configuration-error
status in the `SimulationState` status union at all — and it executes every
slot, producing one per-slot result per policy (each with an empty sensor
result list) and finishing with status `completed`.  (The only guard against an
empty sensor list lives in the UI start handler, outside `runSimulation`.) -/
theorem C6_empty_sensors (seed slots : ℕ) (tau W V : ℝ) (horizon : ℕ)
    (opt : GeneticOptimizer) (gp : GlobalParams) (edges : List EdgeServerConfig)
    (tsraEvents ptsraEvents : ℕ → ℕ → SlotEvents) (noise : ℕ → ℝ) :
    (runSimulation ⟨seed, slots, tau, W, V, horizon, opt, gp, [], edges⟩
      tsraEvents ptsraEvents noise).status = SimStatus.completed ∧
    (runSimulation ⟨seed, slots, tau, W, V, horizon, opt, gp, [], edges⟩
      tsraEvents ptsraEvents noise).tsra_results.length = slots ∧
    (runSimulation ⟨seed, slots, tau, W, V, horizon, opt, gp, [], edges⟩
      tsraEvents ptsraEvents noise).ptsra_results.length = slots ∧
    (∀ r ∈ (runSimulation ⟨seed, slots, tau, W, V, horizon, opt, gp, [], edges⟩
      tsraEvents ptsraEvents noise).tsra_results, r.sensor_results = []) ∧
    (∀ r ∈ (runSimulation ⟨seed, slots, tau, W, V, horizon, opt, gp, [], edges⟩
      tsraEvents ptsraEvents noise).ptsra_results, r.sensor_results = []) := by
  obtain ⟨h1, h2, h3, h4⟩ := simLoop_empty
    ⟨V, tau, W, gp⟩ opt horizon (edges.headD default) tsraEvents ptsraEvents noise
    slots 0 (initializeSensorStates [])
    ⟨initializeSensorStates [], ⟨fun _ => [], fun _ => [], fun _ => []⟩, 0,
     SeededRandom.init (seed + 1)⟩
  exact ⟨rfl, h1, h2, h3, h4⟩

/-- C6 counterexample: a concrete empty-sensor configuration with one slot is
not rejected: the run completes with status `completed` and one per-slot
result is produced for each policy (the claim asserts a configuration-error
rejection with no per-slot results). -/
theorem C6_counterexample :
    (runSimulation ⟨0, 1, 1, 1, 1, 0, ⟨40, 6, 0.05⟩, ⟨1, 1⟩, [], [⟨1⟩]⟩
      (fun _ _ => ⟨0, 0, 0⟩) (fun _ _ => ⟨0, 0, 0⟩) (fun _ => 0)).status =
      SimStatus.completed ∧
    (runSimulation ⟨0, 1, 1, 1, 1, 0, ⟨40, 6, 0.05⟩, ⟨1, 1⟩, [], [⟨1⟩]⟩
      (fun _ _ => ⟨0, 0, 0⟩) (fun _ _ => ⟨0, 0, 0⟩) (fun _ => 0)).tsra_results.length = 1 ∧
    (runSimulation ⟨0, 1, 1, 1, 1, 0, ⟨40, 6, 0.05⟩, ⟨1, 1⟩, [], [⟨1⟩]⟩
      (fun _ _ => ⟨0, 0, 0⟩) (fun _ _ => ⟨0, 0, 0⟩) (fun _ => 0)).ptsra_results.length = 1 := by
  refine ⟨rfl, ?_, ?_⟩ <;>
    simp [runSimulation, simLoop]

/-! ## C7: the battery penalty of the fitness rollout -/

/-- The defensive battery check of the fitness rollout is dead code whenever
the predicted harvest is non-negative: the simulated battery is clipped at zero
before the `< 0` check, so the checked value is never negative and the `10^6`
battery penalty cannot fire. -/
theorem fitness_battery_check_dead (alg : TSRAAlgorithm) (sensor : SensorConfig)
    (f_u p_u alpha : ℝ) (h : ℕ) (arrival harvest channelGain : ℝ)
    (acc : SensorState × ℝ) (hh : 0 ≤ harvest) :
    ¬ (fitnessSlotCost alg sensor f_u p_u alpha h arrival harvest channelGain acc).1.B_u < 0 := by
  unfold fitnessSlotCost
  dsimp only
  have hge : 0 ≤ max 0 (acc.1.B_u - max 0 (alg.globalParams.theta * f_u ^ 3 * alg.tau - harvest))
      + harvest := add_nonneg (le_max_left _ _) hh
  linarith

/-- C7.  Evaluation of `fitnessFunction` at a failing input: battery 0 J,
local-energy consumption `θ f³ τ = 1 J` (so consumption exceeds the available
battery in the rollout slot), zero predicted arrival and harvest.  The claimed
`10^6` battery penalty is not added: the fitness is exactly 1 (the bare energy
cost), far below `10^6`, because the simulated battery is clipped at zero
before the negativity check. -/
theorem C7_battery_penalty_dead :
    fitnessFunction ⟨1, 1, 1, ⟨1, 1⟩⟩ 1 ⟨[0, 1, 0], 0⟩
      ⟨0, 0, 0, 0, 0, 1, 1, 1, 1, OffloadMode.fractional⟩
      ⟨0, 0, 0, 0⟩ ⟨[0], [0], [1]⟩ = 1 ∧ (1 : ℝ) < 1000000 := by
  refine ⟨?_, by norm_num⟩
  unfold fitnessFunction fitnessSlotCost
  have hr1 : List.range 1 = [0] := rfl
  norm_num [Real.logb_one, hr1]

/-! ## C10 and C3: the predictive decision vector -/

instance : Inhabited SensorStepOut := ⟨⟨default, default, default⟩⟩

theorem ptsraSlotAux_length (alg : TSRAAlgorithm) (opt : GeneticOptimizer) (horizon : ℕ)
    (sensors : List SensorConfig) (states : List SensorState) (events : List SlotEvents)
    (xis : List ℝ) (edgeServer : EdgeServerConfig) (noise : ℕ → ℝ) :
    ∀ (idxs : List ℕ) (hist : PTSRAHistories) (noiseIdx gaRng : ℕ),
      (ptsraSlotAux alg opt horizon sensors states events xis edgeServer noise
        idxs hist noiseIdx gaRng).1.length = idxs.length := by
  intro idxs
  induction idxs with
  | nil => intro hist noiseIdx gaRng; rfl
  | cons i rest ih =>
    intro hist noiseIdx gaRng
    simp only [ptsraSlotAux, List.length_cons]
    rw [ih]

theorem executeSlotPredictive_decisions_length (alg : TSRAAlgorithm)
    (opt : GeneticOptimizer) (horizon : ℕ) (sensors : List SensorConfig)
    (states : List SensorState) (events : List SlotEvents) (edgeServer : EdgeServerConfig)
    (noise : ℕ → ℝ) (hist : PTSRAHistories) (noiseIdx gaRng : ℕ) :
    (executeSlotPredictive alg opt horizon sensors states events edgeServer noise hist
      noiseIdx gaRng).decisions.length = sensors.length := by
  unfold executeSlotPredictive
  dsimp only
  rw [List.length_map, ptsraSlotAux_length, List.length_range]

/-- The reported bit of every predictive per-sensor step is
`kappa = (alpha >= 0.5 ? 1 : 0)`. -/
theorem ptsraSensorStep_kappa (alg : TSRAAlgorithm) (opt : GeneticOptimizer)
    (horizon : ℕ) (sensor : SensorConfig) (state : SensorState) (ev : SlotEvents)
    (xi_u : ℝ) (edgeServer : EdgeServerConfig) (arrHist harvHist chanHist : List ℝ)
    (noise : ℕ → ℝ) (noiseIdx gaRng : ℕ) :
    ((ptsraSensorStep alg opt horizon sensor state ev xi_u edgeServer arrHist harvHist
        chanHist noise noiseIdx gaRng).1.decision.kappa = 1 ↔
      0.5 ≤ (ptsraSensorStep alg opt horizon sensor state ev xi_u edgeServer arrHist
        harvHist chanHist noise noiseIdx gaRng).1.decision.alpha) ∧
    ((ptsraSensorStep alg opt horizon sensor state ev xi_u edgeServer arrHist harvHist
        chanHist noise noiseIdx gaRng).1.decision.kappa = 0 ∨
      (ptsraSensorStep alg opt horizon sensor state ev xi_u edgeServer arrHist harvHist
        chanHist noise noiseIdx gaRng).1.decision.kappa = 1) := by
  unfold ptsraSensorStep
  dsimp only
  by_cases h : (0.5 : ℝ) ≤ (if 0 < horizon then
      optimizeAlpha alg opt horizon sensor state
        (predictFuture sensor (pushWindow arrHist ev.arrival) (pushWindow harvHist ev.harvest)
          (pushWindow chanHist ev.channelGain) noise noiseIdx horizon).1 gaRng
    else
      ((taskSchedulingDecision state,
        localCPUFrequencyAllocation alg sensor state,
        transmissionPowerAllocation alg sensor state ev.channelGain), gaRng)).1.1
  · rw [if_pos h]
    exact ⟨⟨fun _ => h, fun _ => rfl⟩, Or.inr rfl⟩
  · rw [if_neg h]
    exact ⟨⟨fun h0 => absurd h0 (by norm_num), fun hc => absurd hc h⟩, Or.inl rfl⟩

theorem ptsraSlotAux_kappa (alg : TSRAAlgorithm) (opt : GeneticOptimizer) (horizon : ℕ)
    (sensors : List SensorConfig) (states : List SensorState) (events : List SlotEvents)
    (xis : List ℝ) (edgeServer : EdgeServerConfig) (noise : ℕ → ℝ) :
    ∀ (idxs : List ℕ) (hist : PTSRAHistories) (noiseIdx gaRng : ℕ),
      ∀ out ∈ (ptsraSlotAux alg opt horizon sensors states events xis edgeServer noise
        idxs hist noiseIdx gaRng).1,
        (out.decision.kappa = 1 ↔ 0.5 ≤ out.decision.alpha) ∧
        (out.decision.kappa = 0 ∨ out.decision.kappa = 1) := by
  intro idxs
  induction idxs with
  | nil => intro hist noiseIdx gaRng out hout; simp [ptsraSlotAux] at hout
  | cons i rest ih =>
    intro hist noiseIdx gaRng out hout
    simp only [ptsraSlotAux, List.mem_cons] at hout
    rcases hout with hout | hout
    · rw [hout]
      exact ptsraSensorStep_kappa alg opt horizon _ _ _ _ edgeServer _ _ _ noise _ _
    · exact ih _ _ _ out hout

/-- C10.  In the Predictive policy with horizon H > 0, every reported
scheduling bit satisfies `κ = 1` if and only if the chosen continuous offload
fraction α (the optimizer best gene 0, committed as the decision alpha) is at
least 0.5, and κ only takes the values 0 and 1. -/
theorem C10_kappa_threshold (alg : TSRAAlgorithm) (opt : GeneticOptimizer) (horizon : ℕ)
    (sensors : List SensorConfig) (states : List SensorState) (events : List SlotEvents)
    (edgeServer : EdgeServerConfig) (noise : ℕ → ℝ) (hist : PTSRAHistories)
    (noiseIdx gaRng : ℕ) (hH : 0 < horizon) (i : ℕ)
    (hi : i < (executeSlotPredictive alg opt horizon sensors states events edgeServer noise
      hist noiseIdx gaRng).decisions.length) :
    (((executeSlotPredictive alg opt horizon sensors states events edgeServer noise hist
        noiseIdx gaRng).decisions.getD i default).kappa = 1 ↔
      0.5 ≤ ((executeSlotPredictive alg opt horizon sensors states events edgeServer noise
        hist noiseIdx gaRng).decisions.getD i default).alpha) ∧
    (((executeSlotPredictive alg opt horizon sensors states events edgeServer noise hist
        noiseIdx gaRng).decisions.getD i default).kappa = 0 ∨
      ((executeSlotPredictive alg opt horizon sensors states events edgeServer noise hist
        noiseIdx gaRng).decisions.getD i default).kappa = 1) := by
  have hmem : (executeSlotPredictive alg opt horizon sensors states events edgeServer noise
      hist noiseIdx gaRng).decisions.getD i default ∈
      (executeSlotPredictive alg opt horizon sensors states events edgeServer noise hist
        noiseIdx gaRng).decisions := getD_mem default hi
  unfold executeSlotPredictive at hmem ⊢
  dsimp only at hmem ⊢
  obtain ⟨out, hout, heq⟩ := List.mem_map.mp hmem
  rw [← heq]
  exact ptsraSlotAux_kappa alg opt horizon sensors states events _ edgeServer noise _ _ _ _
    out hout

theorem C10_kappa_threshold_witness :
    0 < 1 ∧ 0 < (executeSlotPredictive default ⟨3, 2, 0⟩ 1 [default] [default] [default]
      default (fun _ => 0) ⟨fun _ => [], fun _ => [], fun _ => []⟩ 0 0).decisions.length ∧
    ((((executeSlotPredictive default ⟨3, 2, 0⟩ 1 [default] [default] [default] default
        (fun _ => 0) ⟨fun _ => [], fun _ => [], fun _ => []⟩ 0 0).decisions.getD 0
        default).kappa = 1 ↔
      0.5 ≤ ((executeSlotPredictive default ⟨3, 2, 0⟩ 1 [default] [default] [default] default
        (fun _ => 0) ⟨fun _ => [], fun _ => [], fun _ => []⟩ 0 0).decisions.getD 0
        default).alpha) ∧
    (((executeSlotPredictive default ⟨3, 2, 0⟩ 1 [default] [default] [default] default
        (fun _ => 0) ⟨fun _ => [], fun _ => [], fun _ => []⟩ 0 0).decisions.getD 0
        default).kappa = 0 ∨
      ((executeSlotPredictive default ⟨3, 2, 0⟩ 1 [default] [default] [default] default
        (fun _ => 0) ⟨fun _ => [], fun _ => [], fun _ => []⟩ 0 0).decisions.getD 0
        default).kappa = 1)) := by
  have hlen : (executeSlotPredictive default ⟨3, 2, 0⟩ 1 [default] [default] [default]
      default (fun _ => 0) ⟨fun _ => [], fun _ => [], fun _ => []⟩ 0 0).decisions.length = 1 := by
    rw [executeSlotPredictive_decisions_length]
    rfl
  have hpos : 0 < (executeSlotPredictive default ⟨3, 2, 0⟩ 1 [default] [default] [default]
      default (fun _ => 0) ⟨fun _ => [], fun _ => [], fun _ => []⟩ 0 0).decisions.length := by
    rw [hlen]
    norm_num
  exact ⟨by norm_num, hpos,
    C10_kappa_threshold default ⟨3, 2, 0⟩ 1 [default] [default] [default] default
      (fun _ => 0) ⟨fun _ => [], fun _ => [], fun _ => []⟩ 0 0 (by norm_num) 0 hpos⟩

/-- At horizon 0 the predictive per-sensor step bypasses the optimizer: its
decision is the TSRA fallback triple (with `alpha = kappa` and the threshold
bit recomputed from it), independent of the windows, the noise stream and the
optimizer RNG. -/
theorem ptsraSensorStep_zero_decision (alg : TSRAAlgorithm) (opt : GeneticOptimizer)
    (sensor : SensorConfig) (state : SensorState) (ev : SlotEvents) (xi_u : ℝ)
    (edgeServer : EdgeServerConfig) (arrHist harvHist chanHist : List ℝ)
    (noise : ℕ → ℝ) (noiseIdx gaRng : ℕ) :
    (ptsraSensorStep alg opt 0 sensor state ev xi_u edgeServer arrHist harvHist chanHist
        noise noiseIdx gaRng).1.decision =
      ⟨if 0.5 ≤ taskSchedulingDecision state then 1 else 0,
       taskSchedulingDecision state,
       localCPUFrequencyAllocation alg sensor state,
       transmissionPowerAllocation alg sensor state ev.channelGain,
       xi_u⟩ := by
  unfold ptsraSensorStep
  dsimp only
  rw [if_neg (lt_irrefl 0)]

theorem ptsraSlotAux_zero_getD (alg : TSRAAlgorithm) (opt : GeneticOptimizer)
    (sensors : List SensorConfig) (states : List SensorState) (events : List SlotEvents)
    (xis : List ℝ) (edgeServer : EdgeServerConfig) (noise : ℕ → ℝ) :
    ∀ (idxs : List ℕ) (hist : PTSRAHistories) (noiseIdx gaRng k : ℕ),
      k < idxs.length →
      ((ptsraSlotAux alg opt 0 sensors states events xis edgeServer noise idxs hist
          noiseIdx gaRng).1.getD k default).decision =
        ⟨if 0.5 ≤ taskSchedulingDecision (states.getD (idxs.getD k 0) default) then 1 else 0,
         taskSchedulingDecision (states.getD (idxs.getD k 0) default),
         localCPUFrequencyAllocation alg (sensors.getD (idxs.getD k 0) default)
           (states.getD (idxs.getD k 0) default),
         transmissionPowerAllocation alg (sensors.getD (idxs.getD k 0) default)
           (states.getD (idxs.getD k 0) default)
           ((events.getD (idxs.getD k 0) default).channelGain),
         xis.getD (idxs.getD k 0) 0⟩ := by
  intro idxs
  induction idxs with
  | nil => intro hist noiseIdx gaRng k hk; simp at hk
  | cons i rest ih =>
    intro hist noiseIdx gaRng k hk
    simp only [ptsraSlotAux]
    cases k with
    | zero =>
      rw [List.getD_cons_zero, List.getD_cons_zero]
      exact ptsraSensorStep_zero_decision alg opt _ _ _ _ edgeServer _ _ _ noise _ _
    | succ k =>
      rw [List.getD_cons_succ, List.getD_cons_succ]
      exact ih _ _ _ k (by simpa using hk)

theorem executeSlot_decisions_getD (alg : TSRAAlgorithm) (sensors : List SensorConfig)
    (states : List SensorState) (events : List SlotEvents) (edgeServer : EdgeServerConfig)
    {i : ℕ} (hi : i < sensors.length) :
    (alg.executeSlot sensors states events edgeServer).decisions.getD i default =
      (alg.sensorStep (sensors.getD i default) (states.getD i default)
        (events.getD i default) ((edgeServerAllocation sensors states).getD i 0)
        edgeServer).decision := by
  unfold TSRAAlgorithm.executeSlot
  dsimp only
  rw [List.getD_eq_getElem _ _ (by simpa using hi), List.getElem_map, List.getElem_map,
    List.getElem_range]

theorem executeSlotPredictive_zero_decisions_getD (alg : TSRAAlgorithm)
    (opt : GeneticOptimizer) (sensors : List SensorConfig) (states : List SensorState)
    (events : List SlotEvents) (edgeServer : EdgeServerConfig) (noise : ℕ → ℝ)
    (hist : PTSRAHistories) (noiseIdx gaRng : ℕ) {i : ℕ} (hi : i < sensors.length) :
    (executeSlotPredictive alg opt 0 sensors states events edgeServer noise hist noiseIdx
        gaRng).decisions.getD i default =
      ⟨if 0.5 ≤ taskSchedulingDecision (states.getD i default) then 1 else 0,
       taskSchedulingDecision (states.getD i default),
       localCPUFrequencyAllocation alg (sensors.getD i default) (states.getD i default),
       transmissionPowerAllocation alg (sensors.getD i default) (states.getD i default)
         ((events.getD i default).channelGain),
       (edgeServerAllocation sensors states).getD i 0⟩ := by
  unfold executeSlotPredictive
  dsimp only
  have hlen : (ptsraSlotAux alg opt 0 sensors states events
      (edgeServerAllocation sensors states) edgeServer noise (List.range sensors.length)
      hist noiseIdx gaRng).1.length = sensors.length := by
    rw [ptsraSlotAux_length, List.length_range]
  rw [List.getD_eq_getElem _ _ (by rw [List.length_map, hlen]; exact hi), List.getElem_map,
    ← List.getD_eq_getElem _ default (by rw [hlen]; exact hi)]
  have hidx : (List.range sensors.length).getD i 0 = i := by
    rw [List.getD_eq_getElem _ _ (by simpa using hi), List.getElem_range]
  have := ptsraSlotAux_zero_getD alg opt sensors states events
    (edgeServerAllocation sensors states) edgeServer noise (List.range sensors.length)
    hist noiseIdx gaRng i (by simpa using hi)
  rw [hidx] at this
  exact this

/-- C3.  With prediction horizon H = 0 the Predictive policy bypasses the
optimizer and reproduces the Baseline decisions for the slot, given the same
states and realized events: its committed `alpha` equals the Baseline
scheduling bit `kappa`, and its `f_u`, `p_u` and `xi_u` equal the Baseline
sub-problem-2, sub-problem-3 and sub-problem-4 values (and the reported bits
agree as well). -/
theorem C3_horizon_zero (alg : TSRAAlgorithm) (opt : GeneticOptimizer)
    (sensors : List SensorConfig) (states : List SensorState) (events : List SlotEvents)
    (edgeServer : EdgeServerConfig) (noise : ℕ → ℝ) (hist : PTSRAHistories)
    (noiseIdx gaRng : ℕ) (i : ℕ) (hi : i < sensors.length) :
    ((executeSlotPredictive alg opt 0 sensors states events edgeServer noise hist noiseIdx
        gaRng).decisions.getD i default).alpha =
      ((alg.executeSlot sensors states events edgeServer).decisions.getD i default).kappa ∧
    ((executeSlotPredictive alg opt 0 sensors states events edgeServer noise hist noiseIdx
        gaRng).decisions.getD i default).f_u =
      ((alg.executeSlot sensors states events edgeServer).decisions.getD i default).f_u ∧
    ((executeSlotPredictive alg opt 0 sensors states events edgeServer noise hist noiseIdx
        gaRng).decisions.getD i default).p_u =
      ((alg.executeSlot sensors states events edgeServer).decisions.getD i default).p_u ∧
    ((executeSlotPredictive alg opt 0 sensors states events edgeServer noise hist noiseIdx
        gaRng).decisions.getD i default).kappa =
      ((alg.executeSlot sensors states events edgeServer).decisions.getD i default).kappa ∧
    ((executeSlotPredictive alg opt 0 sensors states events edgeServer noise hist noiseIdx
        gaRng).decisions.getD i default).xi_u =
      ((alg.executeSlot sensors states events edgeServer).decisions.getD i default).xi_u := by
  rw [executeSlotPredictive_zero_decisions_getD alg opt sensors states events edgeServer
    noise hist noiseIdx gaRng hi, executeSlot_decisions_getD alg sensors states events
    edgeServer hi]
  unfold TSRAAlgorithm.sensorStep
  dsimp only
  refine ⟨rfl, rfl, rfl, ?_, rfl⟩
  unfold taskSchedulingDecision
  by_cases h : (states.getD i default).H_o ≥ (states.getD i default).H_l
  · rw [if_pos h, if_neg (by norm_num : ¬ (0.5 : ℝ) ≤ 0)]
  · rw [if_neg h, if_pos (by norm_num : (0.5 : ℝ) ≤ 1)]

theorem C3_horizon_zero_witness :
    0 < ([default] : List SensorConfig).length ∧
    ((executeSlotPredictive default default 0 [default] [default] [default] default
        (fun _ => 0) ⟨fun _ => [], fun _ => [], fun _ => []⟩ 0 0).decisions.getD 0
        default).alpha =
      ((TSRAAlgorithm.executeSlot default [default] [default] [default]
        default).decisions.getD 0 default).kappa :=
  ⟨by norm_num,
   (C3_horizon_zero default default [default] [default] [default] default (fun _ => 0)
     ⟨fun _ => [], fun _ => [], fun _ => []⟩ 0 0 0 (by norm_num)).1⟩

/-! ## C1: non-negativity of queues and battery -/

/-- All four state components are non-negative. -/
def stateNonneg (st : SensorState) : Prop :=
  0 ≤ st.H_l ∧ 0 ≤ st.H_o ∧ 0 ≤ st.H_k ∧ 0 ≤ st.B_u

theorem max_add_nonneg {x c : ℝ} (hc : 0 ≤ c) : 0 ≤ max 0 x + c :=
  add_nonneg (le_max_left 0 x) hc

theorem taskSchedulingDecision_cases (st : SensorState) :
    taskSchedulingDecision st = 0 ∨ taskSchedulingDecision st = 1 := by
  unfold taskSchedulingDecision
  by_cases h : st.H_o ≥ st.H_l
  · left; rw [if_pos h]
  · right; rw [if_neg h]

theorem transmissionPowerAllocation_nonneg (alg : TSRAAlgorithm) (sensor : SensorConfig)
    (st : SensorState) (g : ℝ) : 0 ≤ transmissionPowerAllocation alg sensor st g := by
  unfold transmissionPowerAllocation
  by_cases h : st.H_o ≤ st.H_k
  · rw [if_pos h]
  · rw [if_neg h]
    exact le_max_left _ _

theorem logb_one_add_nonneg {snr : ℝ} (hsnr : 0 ≤ snr) : 0 ≤ Real.logb 2 (1 + snr) :=
  Real.logb_nonneg (by norm_num) (by linarith)

theorem calculateTransmissionRate_nonneg (alg : TSRAAlgorithm) {p g : ℝ}
    (hW : 0 ≤ alg.bandwidth) (htau : 0 ≤ alg.tau)
    (hsig : 0 < alg.globalParams.noise_power_W) (hp : 0 ≤ p) (hg : 0 ≤ g) :
    0 ≤ calculateTransmissionRate alg p g := by
  unfold calculateTransmissionRate
  exact mul_nonneg (mul_nonneg hW
    (logb_one_add_nonneg (div_nonneg (mul_nonneg hp hg) (le_of_lt hsig)))) htau

theorem tsra_sensorStep_nonneg (alg : TSRAAlgorithm) (sensor : SensorConfig)
    (state : SensorState) (ev : SlotEvents) (xi_u : ℝ) (edgeServer : EdgeServerConfig)
    (hW : 0 ≤ alg.bandwidth) (htau : 0 ≤ alg.tau)
    (hsig : 0 < alg.globalParams.noise_power_W)
    (harr : 0 ≤ ev.arrival) (hhar : 0 ≤ ev.harvest) (hg : 0 ≤ ev.channelGain) :
    stateNonneg (alg.sensorStep sensor state ev xi_u edgeServer).newState := by
  have hCo : 0 ≤ calculateTransmissionRate alg
      (transmissionPowerAllocation alg sensor state ev.channelGain) ev.channelGain :=
    calculateTransmissionRate_nonneg alg hW htau hsig
      (transmissionPowerAllocation_nonneg alg sensor state ev.channelGain) hg
  unfold TSRAAlgorithm.sensorStep stateNonneg batteryUpdate
  dsimp only
  rcases taskSchedulingDecision_cases state with h | h <;> rw [h] <;>
    exact ⟨max_add_nonneg (by nlinarith), max_add_nonneg (by nlinarith),
      max_add_nonneg hCo, max_add_nonneg hhar⟩

theorem boundsValid_ptsraBounds : boundsValid ptsraBounds := by
  intro b hb
  simp only [ptsraBounds, List.mem_cons, List.mem_singleton] at hb
  rcases hb with rfl | rfl | rfl | hb
  · norm_num
  · norm_num
  · norm_num
  · simp at hb

theorem ptsraBounds_extract {g : List ℝ} (h : genesInBounds ptsraBounds g) :
    0 ≤ g.getD 0 0 ∧ g.getD 0 0 ≤ 1 ∧ 0 ≤ g.getD 2 0 ∧ g.getD 2 0 ≤ 1 := by
  unfold genesInBounds ptsraBounds at h
  cases h with
  | cons h0 h' =>
    cases h' with
    | cons h1 h'' =>
      cases h'' with
      | cons h2 h''' =>
        cases h'''
        exact ⟨h0.1, h0.2, h2.1, h2.2⟩

theorem optimizeAlpha_bounds (alg : TSRAAlgorithm) (opt : GeneticOptimizer) (horizon : ℕ)
    (sensor : SensorConfig) (state : SensorState) (predictions : PredictionHorizon)
    (gaRng : ℕ) (hP : 0 < opt.populationSize) (hpmax : 0 ≤ sensor.p_max_W) :
    0 ≤ (optimizeAlpha alg opt horizon sensor state predictions gaRng).1.1 ∧
    (optimizeAlpha alg opt horizon sensor state predictions gaRng).1.1 ≤ 1 ∧
    0 ≤ (optimizeAlpha alg opt horizon sensor state predictions gaRng).1.2.2 := by
  have hin := optimize_best_inBounds
    (fun ind => fitnessFunction alg horizon ind sensor state predictions) gaRng
    boundsValid_ptsraBounds hP
  have hex := ptsraBounds_extract hin
  unfold optimizeAlpha
  dsimp only
  exact ⟨hex.1, hex.2.1, mul_nonneg hex.2.2.1 hpmax⟩

theorem ptsraSensorStep_nonneg (alg : TSRAAlgorithm) (opt : GeneticOptimizer)
    (horizon : ℕ) (sensor : SensorConfig) (state : SensorState) (ev : SlotEvents)
    (xi_u : ℝ) (edgeServer : EdgeServerConfig) (arrHist harvHist chanHist : List ℝ)
    (noise : ℕ → ℝ) (noiseIdx gaRng : ℕ)
    (hW : 0 ≤ alg.bandwidth) (htau : 0 ≤ alg.tau)
    (hsig : 0 < alg.globalParams.noise_power_W) (hP : 0 < opt.populationSize)
    (hpmax : 0 ≤ sensor.p_max_W)
    (harr : 0 ≤ ev.arrival) (hhar : 0 ≤ ev.harvest) (hg : 0 ≤ ev.channelGain) :
    stateNonneg (ptsraSensorStep alg opt horizon sensor state ev xi_u edgeServer
      arrHist harvHist chanHist noise noiseIdx gaRng).1.newState := by
  unfold ptsraSensorStep
  dsimp only
  by_cases hhor : 0 < horizon
  · rw [if_pos hhor]
    obtain ⟨ha0, ha1, hp0⟩ := optimizeAlpha_bounds alg opt horizon sensor state
      (predictFuture sensor (pushWindow arrHist ev.arrival) (pushWindow harvHist ev.harvest)
        (pushWindow chanHist ev.channelGain) noise noiseIdx horizon).1 gaRng hP hpmax
    refine ⟨max_add_nonneg (mul_nonneg (by linarith) harr),
      max_add_nonneg (mul_nonneg ha0 harr),
      max_add_nonneg (mul_nonneg (mul_nonneg hW (logb_one_add_nonneg
        (div_nonneg (mul_nonneg hp0 hg) (le_of_lt hsig)))) htau),
      max_add_nonneg hhar⟩
  · rw [if_neg hhor]
    dsimp only
    have hp0 : 0 ≤ transmissionPowerAllocation alg sensor state ev.channelGain :=
      transmissionPowerAllocation_nonneg alg sensor state ev.channelGain
    rcases taskSchedulingDecision_cases state with h | h <;> rw [h] <;>
      exact ⟨max_add_nonneg (by nlinarith), max_add_nonneg (by nlinarith),
        max_add_nonneg (mul_nonneg (mul_nonneg hW (logb_one_add_nonneg
          (div_nonneg (mul_nonneg hp0 hg) (le_of_lt hsig)))) htau),
        max_add_nonneg hhar⟩

theorem getD_default_slotEvents (l : List SlotEvents)
    (h : ∀ e ∈ l, 0 ≤ e.arrival ∧ 0 ≤ e.harvest ∧ 0 ≤ e.channelGain) (i : ℕ) :
    0 ≤ (l.getD i default).arrival ∧ 0 ≤ (l.getD i default).harvest ∧
      0 ≤ (l.getD i default).channelGain := by
  by_cases hi : i < l.length
  · exact h _ (getD_mem default hi)
  · rw [List.getD_eq_default _ _ (by omega)]
    refine ⟨le_refl 0, le_refl 0, le_refl 0⟩

theorem getD_default_sensor_pmax (l : List SensorConfig)
    (h : ∀ s ∈ l, 0 ≤ s.p_max_W) (i : ℕ) : 0 ≤ (l.getD i default).p_max_W := by
  by_cases hi : i < l.length
  · exact h _ (getD_mem default hi)
  · rw [List.getD_eq_default _ _ (by omega)]
    exact le_refl 0

theorem executeSlot_newStates_nonneg (alg : TSRAAlgorithm) (sensors : List SensorConfig)
    (states : List SensorState) (events : List SlotEvents) (edgeServer : EdgeServerConfig)
    (hW : 0 ≤ alg.bandwidth) (htau : 0 ≤ alg.tau)
    (hsig : 0 < alg.globalParams.noise_power_W)
    (hev : ∀ e ∈ events, 0 ≤ e.arrival ∧ 0 ≤ e.harvest ∧ 0 ≤ e.channelGain) :
    ∀ st ∈ (alg.executeSlot sensors states events edgeServer).newStates, stateNonneg st := by
  intro st hst
  unfold TSRAAlgorithm.executeSlot at hst
  dsimp only at hst
  obtain ⟨out, hout, heq⟩ := List.mem_map.mp hst
  obtain ⟨i, _, hiq⟩ := List.mem_map.mp hout
  obtain ⟨h1, h2, h3⟩ := getD_default_slotEvents events hev i
  rw [← heq, ← hiq]
  exact tsra_sensorStep_nonneg alg _ _ _ _ edgeServer hW htau hsig h1 h2 h3

theorem ptsraSlotAux_newStates_nonneg (alg : TSRAAlgorithm) (opt : GeneticOptimizer)
    (horizon : ℕ) (sensors : List SensorConfig) (states : List SensorState)
    (events : List SlotEvents) (xis : List ℝ) (edgeServer : EdgeServerConfig)
    (noise : ℕ → ℝ)
    (hW : 0 ≤ alg.bandwidth) (htau : 0 ≤ alg.tau)
    (hsig : 0 < alg.globalParams.noise_power_W) (hP : 0 < opt.populationSize)
    (hpm : ∀ s ∈ sensors, 0 ≤ s.p_max_W)
    (hev : ∀ e ∈ events, 0 ≤ e.arrival ∧ 0 ≤ e.harvest ∧ 0 ≤ e.channelGain) :
    ∀ (idxs : List ℕ) (hist : PTSRAHistories) (noiseIdx gaRng : ℕ),
      ∀ out ∈ (ptsraSlotAux alg opt horizon sensors states events xis edgeServer noise
        idxs hist noiseIdx gaRng).1, stateNonneg out.newState := by
  intro idxs
  induction idxs with
  | nil => intro hist noiseIdx gaRng out hout; simp [ptsraSlotAux] at hout
  | cons i rest ih =>
    intro hist noiseIdx gaRng out hout
    simp only [ptsraSlotAux, List.mem_cons] at hout
    rcases hout with hout | hout
    · obtain ⟨h1, h2, h3⟩ := getD_default_slotEvents events hev i
      rw [hout]
      exact ptsraSensorStep_nonneg alg opt horizon _ _ _ _ edgeServer _ _ _ noise _ _
        hW htau hsig hP (getD_default_sensor_pmax sensors hpm i) h1 h2 h3
    · exact ih _ _ _ out hout

theorem initializeSensorStates_nonneg (sensors : List SensorConfig)
    (hs : ∀ s ∈ sensors, 0 ≤ s.initial_queue_bits ∧ 0 ≤ s.battery_J) :
    ∀ st ∈ initializeSensorStates sensors, stateNonneg st := by
  intro st hst
  unfold initializeSensorStates at hst
  obtain ⟨s, hsmem, heq⟩ := List.mem_map.mp hst
  obtain ⟨hq, hb⟩ := hs s hsmem
  rw [← heq]
  exact ⟨by positivity, by positivity, le_refl 0, hb⟩

theorem range_map_events_nonneg (ev : ℕ → SlotEvents) (m : ℕ)
    (h : ∀ i, 0 ≤ (ev i).arrival ∧ 0 ≤ (ev i).harvest ∧ 0 ≤ (ev i).channelGain) :
    ∀ e ∈ (List.range m).map ev, 0 ≤ e.arrival ∧ 0 ≤ e.harvest ∧ 0 ≤ e.channelGain := by
  intro e he
  obtain ⟨i, _, heq⟩ := List.mem_map.mp he
  rw [← heq]
  exact h i

/-- C1.  For every configuration with non-negative initial queues, initial
batteries and transmit-power caps, non-negative realized arrivals, harvests and
channel gains, non-negative bandwidth and slot duration, positive noise power,
and a non-empty optimizer population, the four state components `H_l, H_o,
H_k, B_u` of every sensor are non-negative at every slot boundary under both
the Baseline and the Predictive policy. -/
theorem C1_state_nonneg (alg : TSRAAlgorithm) (opt : GeneticOptimizer) (horizon : ℕ)
    (sensors : List SensorConfig) (edgeServer : EdgeServerConfig)
    (tsraEvents ptsraEvents : ℕ → ℕ → SlotEvents) (noise : ℕ → ℝ) (gaSeed : ℕ)
    (hW : 0 ≤ alg.bandwidth) (htau : 0 ≤ alg.tau)
    (hsig : 0 < alg.globalParams.noise_power_W) (hP : 0 < opt.populationSize)
    (hsen : ∀ s ∈ sensors,
      0 ≤ s.initial_queue_bits ∧ 0 ≤ s.battery_J ∧ 0 ≤ s.p_max_W)
    (hev1 : ∀ n i, 0 ≤ (tsraEvents n i).arrival ∧ 0 ≤ (tsraEvents n i).harvest ∧
      0 ≤ (tsraEvents n i).channelGain)
    (hev2 : ∀ n i, 0 ≤ (ptsraEvents n i).arrival ∧ 0 ≤ (ptsraEvents n i).harvest ∧
      0 ≤ (ptsraEvents n i).channelGain) :
    ∀ n : ℕ,
      (∀ st ∈ tsraSimulate alg sensors edgeServer tsraEvents n,
        0 ≤ st.H_l ∧ 0 ≤ st.H_o ∧ 0 ≤ st.H_k ∧ 0 ≤ st.B_u) ∧
      (∀ st ∈ (ptsraSimulate alg opt horizon sensors edgeServer ptsraEvents noise
          gaSeed n).states,
        0 ≤ st.H_l ∧ 0 ≤ st.H_o ∧ 0 ≤ st.H_k ∧ 0 ≤ st.B_u) := by
  intro n
  cases n with
  | zero =>
    constructor
    · exact initializeSensorStates_nonneg sensors
        (fun s hs => ⟨(hsen s hs).1, (hsen s hs).2.1⟩)
    · exact initializeSensorStates_nonneg sensors
        (fun s hs => ⟨(hsen s hs).1, (hsen s hs).2.1⟩)
  | succ n =>
    constructor
    · exact executeSlot_newStates_nonneg alg sensors _ _ edgeServer hW htau hsig
        (range_map_events_nonneg (tsraEvents n) sensors.length (hev1 n))
    · intro st hst
      show stateNonneg st
      unfold ptsraSimulate at hst
      dsimp only at hst
      unfold executeSlotPredictive at hst
      dsimp only at hst
      obtain ⟨out, hout, heq⟩ := List.mem_map.mp hst
      rw [← heq]
      exact ptsraSlotAux_newStates_nonneg alg opt horizon sensors _ _ _ edgeServer noise
        hW htau hsig hP (fun s hs => (hsen s hs).2.2)
        (range_map_events_nonneg (ptsraEvents n) sensors.length (hev2 n))
        _ _ _ _ out hout

theorem C1_state_nonneg_witness :
    (0:ℝ) ≤ 1 ∧
    (∀ st ∈ tsraSimulate ⟨1, 1, 1, ⟨1, 1⟩⟩ [default] ⟨1⟩ (fun _ _ => ⟨0, 0, 0⟩) 2,
      0 ≤ st.H_l ∧ 0 ≤ st.H_o ∧ 0 ≤ st.H_k ∧ 0 ≤ st.B_u) ∧
    (∀ st ∈ (ptsraSimulate ⟨1, 1, 1, ⟨1, 1⟩⟩ ⟨40, 6, 0.05⟩ 1 [default] ⟨1⟩
        (fun _ _ => ⟨0, 0, 0⟩) (fun _ => 0) 43 2).states,
      0 ≤ st.H_l ∧ 0 ≤ st.H_o ∧ 0 ≤ st.H_k ∧ 0 ≤ st.B_u) := by
  have h := C1_state_nonneg ⟨1, 1, 1, ⟨1, 1⟩⟩ ⟨40, 6, 0.05⟩ 1 [default] ⟨1⟩
    (fun _ _ => ⟨0, 0, 0⟩) (fun _ _ => ⟨0, 0, 0⟩) (fun _ => 0) 43
    (by norm_num) (by norm_num) (by norm_num) (by norm_num)
    (by
      intro s hs
      simp only [List.mem_singleton] at hs
      subst hs
      refine ⟨le_refl 0, le_refl 0, le_refl 0⟩)
    (by intro n i; exact ⟨le_refl 0, le_refl 0, le_refl 0⟩)
    (by intro n i; exact ⟨le_refl 0, le_refl 0, le_refl 0⟩) 2
  exact ⟨by norm_num, h.1, h.2⟩
